import Mathlib

/-!
# seedhammer/hardware: `pcb/jlcpcb.go`

A shallow embedding of the designator-range expander (`expandRanges`,
`splitDesignator`), of the placement converter (`convertCPL`) and of the parts-list
converter (`convertBOM`).

Conventions of the embedding.

* A Go `string` is a `List Char` (`Str`): the text is taken to be valid UTF-8, so
  that ranging over a string visits its code points and slicing at a visited
  offset splits the list.
* Go `int` is the 64-bit signed integer: an `Int` between `minInt` and `maxInt`,
  with `wrapInt` applied where the source can overflow.
* A Go `(value, error)` result whose error is a formatted message is modelled with
  the message as a `Str`; `none` is the `nil` error.
-/

namespace Jlcpcb

/-- Go `string`, as the list of its code points. -/
abbrev Str := List Char

/-! ## Go library functions used by the source -/

/-- Largest value of Go's `int` (64-bit). -/
def maxInt : Int := 2 ^ 63 - 1

/-- Smallest value of Go's `int` (64-bit). -/
def minInt : Int := -(2 ^ 63)

/-- Two's-complement wrap of an integer into the range of Go's `int`. -/
def wrapInt (x : Int) : Int := (x + 2 ^ 63) % 2 ^ 64 - 2 ^ 63

/-- Latin-1 part of `unicode.IsNumber`: the code points whose entry in the
`properties` table carries `pN`, that is the digits `0`-`9`, the superscripts
U+00B2, U+00B3, U+00B9 and the fractions U+00BC-U+00BE. -/
def latin1IsNumber (r : Char) : Bool :=
  (0x30 ≤ r.toNat && r.toNat ≤ 0x39) || r.toNat == 0xB2 || r.toNat == 0xB3 ||
    r.toNat == 0xB9 || (0xBC ≤ r.toNat && r.toNat ≤ 0xBE)

/-- Go `unicode.IsNumber`: a code point up to `MaxLatin1` is answered from the
Latin-1 property table, any other from the range table `unicode.Number`, which
is the parameter `Number`. -/
def IsNumber (Number : Char → Bool) (r : Char) : Bool :=
  if r.toNat ≤ 0xFF then latin1IsNumber r else Number r

/-- An ASCII decimal digit, the only digits `strconv.Atoi` accepts. -/
def isDigit (c : Char) : Bool := 0x30 ≤ c.toNat && c.toNat ≤ 0x39

/-- Value of a string of ASCII digits read in base 10. -/
def digitsValue (ds : Str) : Nat := ds.foldl (fun n d => n * 10 + (d.toNat - 0x30)) 0

/-- Base-10 parse of an unsigned digit string: at least one character, all of
them ASCII digits. -/
def parseDigits (ds : Str) : Option Nat :=
  if ds ≠ [] ∧ ds.all isDigit = true then some (digitsValue ds) else none

/-- Go `strconv.Atoi` for a 64-bit `int`: an optional sign followed by one or more
ASCII digits, whose value fits the type; `none` stands for its error. -/
def Atoi (s : Str) : Option Int :=
  match s with
  | [] => none
  | '-' :: ds =>
    match parseDigits ds with
    | none => none
    | some un => if 2 ^ 63 < un then none else some (-(un : Int))
  | '+' :: ds =>
    match parseDigits ds with
    | none => none
    | some un => if 2 ^ 63 ≤ un then none else some (un : Int)
  | c :: ds =>
    match parseDigits (c :: ds) with
    | none => none
    | some un => if 2 ^ 63 ≤ un then none else some (un : Int)

/-- Go `%d` formatting of an `int`. -/
def formatInt (i : Int) : Str :=
  if i < 0 then '-' :: Nat.toDigits 10 (-i).toNat else Nat.toDigits 10 i.toNat

/-- Go `strings.Split(s, sep)` for a one-character separator: the pieces between
the occurrences of `sep`, never an empty list. -/
def stringsSplit (s : Str) (sep : Char) : List Str :=
  match s with
  | [] => [[]]
  | c :: cs =>
    if c = sep then [] :: stringsSplit cs sep
    else
      match stringsSplit cs sep with
      | [] => [[c]]
      | piece :: pieces => (c :: piece) :: pieces

/-- Go `strings.Join(elems, sep)`. -/
def stringsJoin (elems : List Str) (sep : Str) : Str :=
  match elems with
  | [] => []
  | [e] => e
  | e :: es => e ++ sep ++ stringsJoin es sep

/-- Go `strings.Cut(s, sep)` for a one-character separator: the text before and
after the first `sep`, or `none` when `found` is false. -/
def stringsCut (s : Str) (sep : Char) : Option (Str × Str) :=
  match s with
  | [] => none
  | c :: cs =>
    if c = sep then some ([], cs)
    else
      match stringsCut cs sep with
      | none => none
      | some (before, after) => some (c :: before, after)

/-! ## Designator ranges -/

/-- The message of `fmt.Errorf("invalid designator: %s", text)`. -/
def invalidDesignator (text : Str) : Str := "invalid designator: ".toList ++ text

/-- The loop of `splitDesignator`: `before` is `ref[:n]` and the last argument is
`ref[n:]`. -/
def splitDesignatorFrom (Number : Char → Bool) (ref before : Str) :
    Str → Except Str (Str × Int)
  | [] => .error (invalidDesignator ref)
  | c :: cs =>
    if IsNumber Number c then
      match Atoi (c :: cs) with
      | none => .error (invalidDesignator ref)
      | some num => .ok (before, num)
    else splitDesignatorFrom Number ref (before ++ [c]) cs

/-- Source `splitDesignator`: the prefix before the first number rune and the
integer that the rest of the text spells. The error result carries the message;
the string and integer returned with it are always `""` and `0`. -/
def splitDesignator (Number : Char → Bool) (ref : Str) : Except Str (Str × Int) :=
  splitDesignatorFrom Number ref [] ref

/-- The loop `for i := num1; i <= num2; i++ { split = append(split, des1+i) }` of
`expandRanges`, run for at most `fuel` evaluations of its condition; `none` when
the fuel runs out before the loop exits. -/
def rangeLoop (des1 : Str) (num2 : Int) : Nat → Int → List Str → Option (List Str)
  | 0, _, _ => none
  | fuel + 1, i, split =>
    if i ≤ num2 then rangeLoop des1 num2 fuel (wrapInt (i + 1)) (split ++ [des1 ++ formatInt i])
    else some split

/-- The loop of `expandRanges` over the comma-separated elements, with the
accumulator `split`. The result is the pair `(string, error)`; `none` when an
inner range loop did not finish within `fuel`. -/
def expandElems (Number : Char → Bool) (fuel : Nat) :
    List Str → List Str → Option (Str × Option Str)
  | [], split => some (stringsJoin split ",".toList, none)
  | refs :: rest, split =>
    match stringsCut refs '-' with
    | none => expandElems Number fuel rest (split ++ [refs])
    | some (ref1, ref2) =>
      match splitDesignator Number ref1 with
      | .error err1 => some ([], some err1)
      | .ok (des1, num1) =>
        match splitDesignator Number ref2 with
        | .error _ => some ([], none)
        | .ok (des2, num2) =>
          if des1 ≠ des2 then some ([], some (invalidDesignator refs))
          else
            match rangeLoop des1 num2 fuel num1 split with
            | none => none
            | some split1 => expandElems Number fuel rest split1

/-- Source `expandRanges`. When the second side of a range does not split, the
source returns `err1`, which is `nil` on that path: the result is `("", nil)`. -/
def expandRanges (Number : Char → Bool) (fuel : Nat) (refs : Str) : Option (Str × Option Str) :=
  expandElems Number fuel (stringsSplit refs ',') []

/-- An element without a dash and without a comma: a single designator. -/
def PlainElem (e : Str) : Prop := '-' ∉ e ∧ ',' ∉ e

/-- An ascending range element `L-R`: both sides split with the same prefix, the
low number is at most the high one, and the high one is at most `bound`. -/
def AscendingRange (Number : Char → Bool) (bound : Int) (e : Str) : Prop :=
  ∃ (L R p : Str) (a b : Int), e = L ++ '-' :: R ∧ '-' ∉ L ∧ ',' ∉ L ∧ ',' ∉ R ∧
    splitDesignator Number L = .ok (p, a) ∧ splitDesignator Number R = .ok (p, b) ∧
    a ≤ b ∧ b ≤ bound


/-! ## The placement converter

`float64` is a type parameter `α` with its arithmetic: the converter is the same
program over any number type, and the claims about exact real arithmetic are the
instance `α := ℝ`. The library functions on `float64` are the fields of `FloatLib`.
-/

/-- Source `Fixup`, over the number type `α` standing for `float64`. -/
structure Fixup (α : Type) where
  /-- Rotation correction in degrees. -/
  Rotation : α
  /-- Offset along the footprint's X axis. -/
  OffsetX : α
  /-- Offset along the footprint's Y axis. -/
  OffsetY : α

/-- The `float64` library functions that `convertCPL` calls. -/
structure FloatLib (α : Type) where
  /-- Go `strconv.ParseFloat(s, 64)`; `none` stands for its error. -/
  ParseFloat : Str → Option α
  /-- Go `math.Sincos`, returning the sine first. -/
  Sincos : α → α × α
  /-- Go `math.Pi`. -/
  Pi : α
  /-- Go `fmt.Sprintf("%f", x)`. -/
  Sprintf : α → Str

/-- Go `map[string]Fixup`, read through its lookup `fixup, ok := fixups[ref]`. -/
abbrev FixupSet (α : Type) := Str → Option (Fixup α)

/-- A data record of the placement list with its seven fields, and the line that
`srccsv.FieldPos(1)` reports for it. -/
structure CPLRecord where
  /-- Field 0. -/
  Ref : Str
  /-- Field 1. -/
  Val : Str
  /-- Field 2. -/
  Package : Str
  /-- Field 3. -/
  PosX : Str
  /-- Field 4. -/
  PosY : Str
  /-- Field 5. -/
  Rot : Str
  /-- Field 6. -/
  Side : Str
  /-- Line of field 1 in the input. -/
  line : Nat

/-- The input of `convertCPL` as its `csv.Reader` delivers it. `header` is the result
of the first `Read`, an error (`EOF` included) or a record. `rows` are the records of
the following successful reads; the reader gives every record the field count of the
first one, so after an accepted header they have seven fields. `final` ends the
stream: `none` when the reader reports `io.EOF`, `some e` when it fails with the
error `e` (a malformed record, a record with another number of fields, a failed
read of the file). -/
structure CPLSource where
  /-- Result of the first `Read`. -/
  header : Except Str (List Str)
  /-- Records read after the header. -/
  rows : List CPLRecord
  /-- How the stream ends. -/
  final : Option Str

/-- The header `convertCPL` requires. -/
def cplHeader : List Str :=
  ["Ref".toList, "Val".toList, "Package".toList, "PosX".toList, "PosY".toList, "Rot".toList,
    "Side".toList]

/-- The header `convertCPL` writes. -/
def cplOutHeader : List Str :=
  ["Designator".toList, "Val".toList, "Package".toList, "Mid X".toList, "Mid Y".toList,
    "Rotation".toList, "Layer".toList]

/-- Lines 159-167 for one field: a non-empty field goes through `ParseFloat`, an empty
one keeps the zero value of the variable and a nil error. -/
def parseField {α : Type} [Zero α] (lib : FloatLib α) (field : Str) : Option α :=
  if field ≠ [] then lib.ParseFloat field else some 0

/-- The message of
`fmt.Errorf("cps: invalid position on line %d: %s, %s, %s", line, posx, posy, rot)`. -/
def invalidPosition (line : Nat) (posx posy rot : Str) : Str :=
  "cps: invalid position on line ".toList ++ formatInt line ++ ": ".toList ++ posx ++
    ", ".toList ++ posy ++ ", ".toList ++ rot

/-- Lines 174-186, the body of `if fixup, ok := fixups[ref]; ok`: the new values of
`(posxf, posyf, rotf)`. -/
def compensate {α : Type} [Sub α] [Add α] [Mul α] [Div α] [Neg α] [OfNat α 180]
    (lib : FloatLib α) (fixup : Fixup α) (side : Str) (rotf posxf posyf : α) : α × α × α :=
  let rotf := if side = "bottom".toList then 180 - rotf else rotf
  let rotf := rotf - fixup.Rotation
  let offx := fixup.OffsetX
  let offy := fixup.OffsetY
  let sinrot := (lib.Sincos (rotf / 180 * lib.Pi)).1
  let cosrot := (lib.Sincos (rotf / 180 * lib.Pi)).2
  let offx1 := cosrot * offx - sinrot * offy
  let offy1 := sinrot * offx + cosrot * offy
  let offx2 := if side = "bottom".toList then -offx1 else offx1
  (posxf - offx2, posyf - offy1, rotf)

/-- Lines 172-187: the values of `(posxf, posyf, rotf)` that reach the output, after
the compensation when the designator has a fixup and unchanged when it has none. -/
def cplValues {α : Type} [Sub α] [Add α] [Mul α] [Div α] [Neg α] [OfNat α 180]
    (lib : FloatLib α) (fixups : FixupSet α) (ref side : Str) (rotf posxf posyf : α) :
    α × α × α :=
  match fixups ref with
  | some fixup => compensate lib fixup side rotf posxf posyf
  | none => (posxf, posyf, rotf)

/-- Lines 156-194, the body of the loop of `convertCPL` for one record: the error it
returns, or the record it gives to `dstcsv.Write`. -/
def cplRow {α : Type} [Zero α] [Sub α] [Add α] [Mul α] [Div α] [Neg α] [OfNat α 180]
    (lib : FloatLib α) (fixups : FixupSet α) (rec : CPLRecord) : Except Str (List Str) :=
  match parseField lib rec.Rot, parseField lib rec.PosX, parseField lib rec.PosY with
  | some rotf, some posxf, some posyf =>
    let out := cplValues lib fixups rec.Ref rec.Side rotf posxf posyf
    .ok [rec.Ref, rec.Val, rec.Package, lib.Sprintf out.1, lib.Sprintf out.2.1,
      lib.Sprintf out.2.2, rec.Side]
  | _, _, _ => .error (invalidPosition rec.line rec.PosX rec.PosY rec.Rot)

/-- The loop of `convertCPL` (lines 148-197) over the records still to read, with the
records written so far. When the reader reports `io.EOF` the writer is flushed and the
result is `dstcsv.Error()`, the parameter `dstErr`. -/
def cplLoop {α : Type} [Zero α] [Sub α] [Add α] [Mul α] [Div α] [Neg α] [OfNat α 180]
    (lib : FloatLib α) (fixups : FixupSet α) (final dstErr : Option Str) :
    List CPLRecord → List (List Str) → List (List Str) × Option Str
  | [], written =>
    match final with
    | some e => (written, some ("cpl: ".toList ++ e))
    | none => (written, dstErr)
  | rec :: rest, written =>
    match cplRow lib fixups rec with
    | .error e => (written, some e)
    | .ok out => cplLoop lib fixups final dstErr rest (written ++ [out])

/-- Source `convertCPL`, from the creation of the reader on: the records given to
`dstcsv.Write`, in order, and the returned error. `dstErr` is what `dstcsv.Error()`
reports after the flush (`none` when every write succeeded). -/
def convertCPL {α : Type} [Zero α] [Sub α] [Add α] [Mul α] [Div α] [Neg α] [OfNat α 180]
    (lib : FloatLib α) (fixups : FixupSet α) (src : CPLSource) (dstErr : Option Str) :
    List (List Str) × Option Str :=
  match src.header with
  | .error e => ([], some ("cpl: ".toList ++ e))
  | .ok rec =>
    if rec ≠ cplHeader then
      ([], some ("cpl: unexpected header: ".toList ++ stringsJoin rec ",".toList))
    else cplLoop lib fixups src.final dstErr src.rows [cplOutHeader]

/-- A numeric field that is not empty and that `ParseFloat` rejects. -/
def malformedField {α : Type} (lib : FloatLib α) (field : Str) : Bool :=
  decide (field ≠ []) && (lib.ParseFloat field).isNone

/-- A record with a malformed `Rot`, `PosX` or `PosY` field. -/
def malformedRecord {α : Type} (lib : FloatLib α) (rec : CPLRecord) : Bool :=
  malformedField lib rec.Rot || malformedField lib rec.PosX || malformedField lib rec.PosY

/-! ## The parts-list converter

The fixups are only copied here, so their number type `α` is arbitrary. The table
`JLCPCBFixups` is declared outside this source file and is a parameter.
-/

/-- A data record of the parts list with its four fields, named after the columns of
the required header. -/
structure BOMRecord where
  /-- Field 0, `refs` in the source. -/
  Reference : Str
  /-- Field 1, `val` in the source. -/
  Value : Str
  /-- Field 2, `footprint` in the source. -/
  Footprint : Str
  /-- Field 3, `partno` in the source. -/
  LCSC : Str

/-- The input of `convertBOM` as its `csv.Reader` delivers it; see `CPLSource`. After
an accepted header the records have four fields. -/
structure BOMSource where
  /-- Result of the first `Read`. -/
  header : Except Str (List Str)
  /-- Records read after the header. -/
  rows : List BOMRecord
  /-- How the stream ends: `none` for `io.EOF`, `some e` for a reader error. -/
  final : Option Str

/-- What `convertBOM` returns and writes. -/
structure BOMResult (α : Type) where
  /-- The returned map; `none` is the `nil` map of the error returns. -/
  fixups : Option (FixupSet α)
  /-- The records given to `dstcsv.Write`, in order. -/
  written : List (List Str)
  /-- The returned error. -/
  err : Option Str

/-- The header `convertBOM` requires. -/
def bomHeader : List Str :=
  ["Reference".toList, "Value".toList, "Footprint".toList, "LCSC".toList]

/-- The header `convertBOM` writes. -/
def bomOutHeader : List Str :=
  ["Comment".toList, "Designator".toList, "Footprint".toList, "LCSC".toList]

/-- Go `make(map[string]Fixup)`. -/
def emptyFixups {α : Type} : FixupSet α := fun _ => none

/-- Go map assignment `fixups[ref] = fixup`. -/
def setFixup {α : Type} (fixups : FixupSet α) (ref : Str) (fixup : Fixup α) : FixupSet α :=
  fun key => if key = ref then some fixup else fixups key

/-- Lines 235-237: the value after `if val == "-- mixed values --" { val = "~" }`. -/
def normaliseValue (val : Str) : Str :=
  if val = "-- mixed values --".toList then "~".toList else val

/-- The message of `fmt.Errorf("%s: missing LCDC part number", refs)`. -/
def missingPartNumber (refs : Str) : Str := refs ++ ": missing LCDC part number".toList

/-- Lines 245-249: when the part number is in the table, every comma-separated element
of the expanded references gets its fixup. -/
def addFixups {α : Type} (JLCPCBFixups : FixupSet α) (partno refs : Str)
    (fixups : FixupSet α) : FixupSet α :=
  match JLCPCBFixups partno with
  | some fixup => (stringsSplit refs ',').foldl (fun m ref => setFixup m ref fixup) fixups
  | none => fixups

/-- The loop of `convertBOM` (lines 226-253) over the records still to read, with the
map and the written records so far; `none` when an expansion did not finish within
`fuel`. -/
def bomLoop {α : Type} (Number : Char → Bool) (fuel : Nat) (JLCPCBFixups : FixupSet α)
    (final dstErr : Option Str) :
    List BOMRecord → FixupSet α → List (List Str) → Option (BOMResult α)
  | [], fixups, written =>
    match final with
    | some e => some ⟨none, written, some ("bom: ".toList ++ e)⟩
    | none => some ⟨some fixups, written, dstErr⟩
  | rec :: rest, fixups, written =>
    if rec.LCSC = [] then some ⟨none, written, some (missingPartNumber rec.Reference)⟩
    else
      match expandRanges Number fuel rec.Reference with
      | none => none
      | some (_, some err) => some ⟨none, written, some err⟩
      | some (refs, none) =>
        bomLoop Number fuel JLCPCBFixups final dstErr rest
          (addFixups JLCPCBFixups rec.LCSC refs fixups)
          (written ++ [[normaliseValue rec.Value, refs, rec.Footprint, rec.LCSC]])

/-- Source `convertBOM`, from the creation of the reader on. `dstErr` is what
`dstcsv.Error()` reports after the flush. -/
def convertBOM {α : Type} (Number : Char → Bool) (fuel : Nat) (JLCPCBFixups : FixupSet α)
    (src : BOMSource) (dstErr : Option Str) : Option (BOMResult α) :=
  match src.header with
  | .error e => some ⟨none, [], some ("bom: ".toList ++ e)⟩
  | .ok rec =>
    if rec ≠ bomHeader then
      some ⟨none, [], some ("bom: unexpected header: ".toList ++ stringsJoin rec ",".toList)⟩
    else bomLoop Number fuel JLCPCBFixups src.final dstErr src.rows emptyFixups [bomOutHeader]


/-! ## Facts about the library functions -/

theorem stringsCut_eq_none {s : Str} {sep : Char} (h : sep ∉ s) : stringsCut s sep = none := by
  induction s with
  | nil => rfl
  | cons c cs ih =>
    have hc : c ≠ sep := fun e => h (by simp [e])
    have hcs : sep ∉ cs := fun m => h (List.mem_cons_of_mem _ m)
    simp [stringsCut, hc, ih hcs]

theorem stringsCut_append {L : Str} {sep : Char} (R : Str) (h : sep ∉ L) :
    stringsCut (L ++ sep :: R) sep = some (L, R) := by
  induction L with
  | nil => simp [stringsCut]
  | cons c cs ih =>
    have hc : c ≠ sep := fun e => h (by simp [e])
    have hcs : sep ∉ cs := fun m => h (List.mem_cons_of_mem _ m)
    simp [stringsCut, hc, ih hcs]

theorem stringsSplit_ne_nil (s : Str) (sep : Char) : stringsSplit s sep ≠ [] := by
  induction s with
  | nil => simp [stringsSplit]
  | cons c cs ih =>
    unfold stringsSplit
    by_cases hc : c = sep
    · simp [hc]
    · cases hs : stringsSplit cs sep <;> simp [hc]

theorem stringsSplit_of_not_mem {e : Str} {sep : Char} (h : sep ∉ e) :
    stringsSplit e sep = [e] := by
  induction e with
  | nil => rfl
  | cons c cs ih =>
    have hc : c ≠ sep := fun e => h (by simp [e])
    have hcs : sep ∉ cs := fun m => h (List.mem_cons_of_mem _ m)
    simp [stringsSplit, hc, ih hcs]

theorem stringsSplit_append {e : Str} {sep : Char} (rest : Str) (h : sep ∉ e) :
    stringsSplit (e ++ sep :: rest) sep = e :: stringsSplit rest sep := by
  induction e with
  | nil => simp [stringsSplit]
  | cons c cs ih =>
    have hc : c ≠ sep := fun e => h (by simp [e])
    have hcs : sep ∉ cs := fun m => h (List.mem_cons_of_mem _ m)
    simp [stringsSplit, hc, ih hcs]

theorem stringsJoin_cons_cons (e e1 : Str) (es : List Str) (sep : Str) :
    stringsJoin (e :: e1 :: es) sep = e ++ sep ++ stringsJoin (e1 :: es) sep := rfl

theorem stringsJoin_cons_of_ne_nil (e : Str) {es : List Str} (sep : Str) (h : es ≠ []) :
    stringsJoin (e :: es) sep = e ++ sep ++ stringsJoin es sep := by
  cases es with
  | nil => exact absurd rfl h
  | cons e1 es => rfl

theorem stringsJoin_cons_head (c : Char) (piece : Str) (pieces : List Str) (sep : Str) :
    stringsJoin ((c :: piece) :: pieces) sep = c :: stringsJoin (piece :: pieces) sep := by
  cases pieces <;> simp [stringsJoin]

/-- Splitting a joined list of separator-free elements gives the elements back. -/
theorem stringsSplit_stringsJoin {sep : Char} :
    ∀ (es : List Str), es ≠ [] → (∀ e ∈ es, sep ∉ e) →
      stringsSplit (stringsJoin es [sep]) sep = es
  | [], h, _ => absurd rfl h
  | [e], _, hes => by
    simpa [stringsJoin] using stringsSplit_of_not_mem (hes e (by simp))
  | e :: e1 :: es, _, hes => by
    have he : sep ∉ e := hes e (by simp)
    have ih := stringsSplit_stringsJoin (e1 :: es) (by simp)
      (fun x hx => hes x (List.mem_cons_of_mem _ hx))
    rw [stringsJoin_cons_cons]
    simp only [List.append_assoc, List.singleton_append]
    rw [stringsSplit_append _ he, ih]

/-- Joining the pieces of a split gives the text back. -/
theorem stringsJoin_stringsSplit (s : Str) (sep : Char) :
    stringsJoin (stringsSplit s sep) [sep] = s := by
  induction s with
  | nil => rfl
  | cons c cs ih =>
    unfold stringsSplit
    by_cases hc : c = sep
    · simp only [hc, if_true]
      rw [stringsJoin_cons_of_ne_nil _ _ (stringsSplit_ne_nil cs sep), ih]
      simp
    · simp only [hc, if_false]
      cases hs : stringsSplit cs sep with
      | nil => exact absurd hs (stringsSplit_ne_nil cs sep)
      | cons piece pieces =>
        simp only []
        rw [stringsJoin_cons_head, ← hs, ih]

theorem mem_of_mem_stringsSplit {sep x : Char} :
    ∀ (s e : Str), e ∈ stringsSplit s sep → x ∈ e → x ∈ s := by
  intro s
  induction s with
  | nil =>
    intro e he hx
    simp [stringsSplit] at he
    subst he
    exact hx
  | cons c cs ih =>
    intro e he hx
    unfold stringsSplit at he
    by_cases hc : c = sep
    · simp only [hc, if_true, List.mem_cons] at he
      rcases he with he | he
      · subst he; simp at hx
      · exact List.mem_cons_of_mem _ (ih e he hx)
    · simp only [hc, if_false] at he
      cases hs : stringsSplit cs sep with
      | nil => exact absurd hs (stringsSplit_ne_nil cs sep)
      | cons piece pieces =>
        rw [hs] at he
        simp only [List.mem_cons] at he
        rcases he with he | he
        · subst he
          rcases List.mem_cons.1 hx with hx | hx
          · subst hx; simp
          · exact List.mem_cons_of_mem _ (ih piece (by simp [hs]) hx)
        · exact List.mem_cons_of_mem _ (ih e (by simp [hs, he]) hx)

/-! ## Facts about the designator functions -/

theorem wrapInt_of_range {x : Int} (h1 : minInt ≤ x) (h2 : x ≤ maxInt) : wrapInt x = x := by
  unfold wrapInt
  unfold minInt at h1
  unfold maxInt at h2
  omega

theorem wrapInt_range (x : Int) : minInt ≤ wrapInt x ∧ wrapInt x ≤ maxInt := by
  unfold wrapInt minInt maxInt
  omega

theorem Atoi_range {s : Str} {n : Int} (h : Atoi s = some n) : minInt ≤ n ∧ n ≤ maxInt := by
  unfold Atoi at h
  unfold minInt maxInt
  split at h
  · exact absurd h (by simp)
  · split at h
    · exact absurd h (by simp)
    · split at h
      · exact absurd h (by simp)
      · simp only [Option.some.injEq] at h
        omega
  · split at h
    · exact absurd h (by simp)
    · split at h
      · exact absurd h (by simp)
      · simp only [Option.some.injEq] at h
        omega
  · split at h
    · exact absurd h (by simp)
    · split at h
      · exact absurd h (by simp)
      · simp only [Option.some.injEq] at h
        omega

theorem splitDesignatorFrom_range (Number : Char → Bool) (ref : Str) {p : Str} {n : Int} :
    ∀ (rest before : Str), splitDesignatorFrom Number ref before rest = .ok (p, n) →
      minInt ≤ n ∧ n ≤ maxInt := by
  intro rest
  induction rest with
  | nil => intro before h; simp [splitDesignatorFrom] at h
  | cons c cs ih =>
    intro before h
    unfold splitDesignatorFrom at h
    by_cases hc : IsNumber Number c = true
    · simp only [hc, if_true] at h
      cases ha : Atoi (c :: cs) with
      | none => simp [ha] at h
      | some num =>
        simp only [ha, Except.ok.injEq, Prod.mk.injEq] at h
        exact h.2 ▸ Atoi_range ha
    · simp only [hc] at h
      exact ih _ h

theorem splitDesignator_range {Number : Char → Bool} {ref p : Str} {n : Int}
    (h : splitDesignator Number ref = .ok (p, n)) : minInt ≤ n ∧ n ≤ maxInt :=
  splitDesignatorFrom_range Number ref ref [] h

/-- The range loop below the largest `int`: once the fuel exceeds the number of
iterations, it appends the designators `des1 ++ i`, ..., `des1 ++ num2`. -/
theorem rangeLoop_eq (des1 : Str) (num2 : Int) (hnum2 : num2 < maxInt) :
    ∀ (n fuel : Nat) (i : Int) (split : List Str), minInt ≤ i → i + n = num2 + 1 → n < fuel →
      rangeLoop des1 num2 fuel i split =
        some (split ++ (List.range n).map (fun (k : Nat) => des1 ++ formatInt (i + (k : Int)))) := by
  intro n
  induction n with
  | zero =>
    intro fuel i split _ hi hf
    obtain ⟨f, rfl⟩ : ∃ f, fuel = f + 1 := ⟨fuel - 1, by omega⟩
    have : ¬ i ≤ num2 := by omega
    simp [rangeLoop, this]
  | succ n ih =>
    intro fuel i split hmin hi hf
    obtain ⟨f, rfl⟩ : ∃ f, fuel = f + 1 := ⟨fuel - 1, by omega⟩
    have hle : i ≤ num2 := by omega
    have hw : wrapInt (i + 1) = i + 1 :=
      wrapInt_of_range (by omega) (by omega)
    have hstep := ih f (i + 1) (split ++ [des1 ++ formatInt i]) (by omega)
      (by push_cast at hi ⊢; omega) (by omega)
    unfold rangeLoop
    simp only [hle, if_true, hw, hstep, List.range_succ_eq_map, List.map_cons, List.map_map,
      List.append_assoc, List.singleton_append, Option.some.injEq]
    congr 2
    · simp
    · apply List.map_congr_left
      intro k _
      simp only [Function.comp, Nat.succ_eq_add_one]
      congr 2
      push_cast
      ring

/-- At the largest `int` the loop condition `i <= num2` holds for every `int`, so
the loop never exits. -/
theorem rangeLoop_maxInt (des1 : Str) :
    ∀ (fuel : Nat) (i : Int) (split : List Str), i ≤ maxInt →
      rangeLoop des1 maxInt fuel i split = none := by
  intro fuel
  induction fuel with
  | zero => intro i split _; rfl
  | succ f ih =>
    intro i split hi
    unfold rangeLoop
    simp only [hi, if_true]
    exact ih _ _ (wrapInt_range _).2

/-- Elements without a dash are appended to the accumulator unchanged. -/
theorem expandElems_plain (Number : Char → Bool) (fuel : Nat) :
    ∀ (es split : List Str), (∀ e ∈ es, '-' ∉ e) →
      expandElems Number fuel es split = some (stringsJoin (split ++ es) ",".toList, none) := by
  intro es
  induction es with
  | nil => intro split _; simp [expandElems]
  | cons e es ih =>
    intro split h
    have he : '-' ∉ e := h e (by simp)
    unfold expandElems
    simp only [stringsCut_eq_none he]
    rw [ih _ (fun x hx => h x (List.mem_cons_of_mem _ hx))]
    simp

/-- Elements without a dash that precede the rest of the input only move to the
accumulator. -/
theorem expandElems_plain_append (Number : Char → Bool) (fuel : Nat) (rest : List Str) :
    ∀ (pre split : List Str), (∀ e ∈ pre, '-' ∉ e) →
      expandElems Number fuel (pre ++ rest) split = expandElems Number fuel rest (split ++ pre) := by
  intro pre
  induction pre with
  | nil => intro split _; simp
  | cons e es ih =>
    intro split h
    have he : '-' ∉ e := h e (by simp)
    simp only [List.cons_append]
    rw [expandElems]
    simp only [stringsCut_eq_none he]
    rw [ih _ (fun x hx => h x (List.mem_cons_of_mem _ hx))]
    simp


theorem stringsJoin_append (sep : Str) :
    ∀ (xs ys : List Str), xs ≠ [] → ys ≠ [] →
      stringsJoin (xs ++ ys) sep = stringsJoin xs sep ++ sep ++ stringsJoin ys sep
  | [], _, h, _ => absurd rfl h
  | [x], ys, _, hy => by
    simp [stringsJoin, stringsJoin_cons_of_ne_nil x sep hy]
  | x :: x1 :: xs, ys, _, hy => by
    have ih := stringsJoin_append sep (x1 :: xs) ys (by simp) hy
    simp only [List.cons_append] at ih ⊢
    rw [stringsJoin_cons_cons, ih, stringsJoin_cons_cons]
    simp [List.append_assoc]

/-- Joining the concatenation of non-empty groups is joining the joined groups. -/
theorem stringsJoin_flatten (sep : Str) :
    ∀ (dss : List (List Str)), (∀ ds ∈ dss, ds ≠ []) →
      stringsJoin dss.flatten sep = stringsJoin (dss.map (fun ds => stringsJoin ds sep)) sep
  | [], _ => rfl
  | [ds], _ => by simp [stringsJoin]
  | ds :: ds1 :: dss, h => by
    have ih := stringsJoin_flatten sep (ds1 :: dss) (fun x hx => h x (List.mem_cons_of_mem _ hx))
    have hne : (ds1 :: dss).flatten ≠ [] := by
      have := h ds1 (by simp)
      simp [this]
    rw [List.flatten_cons, stringsJoin_append sep _ _ (h ds (by simp)) hne, ih]
    simp [stringsJoin]

/-- One ascending range element below the largest `int` appends its designators
to the accumulator, whatever follows it. -/
theorem expandElems_range_cons (Number : Char → Bool) (fuel : Nat) (L R p : Str) (a b : Int)
    (hLdash : '-' ∉ L)
    (hL : splitDesignator Number L = .ok (p, a)) (hR : splitDesignator Number R = .ok (p, b))
    (hab : a ≤ b + 1) (hb : b < maxInt) (hfuel : (b - a + 1).toNat < fuel)
    (rest split : List Str) :
    expandElems Number fuel ((L ++ '-' :: R) :: rest) split =
      expandElems Number fuel rest
        (split ++ (List.range (b - a + 1).toNat).map
          (fun (k : Nat) => p ++ formatInt (a + (k : Int)))) := by
  have hloop := rangeLoop_eq p b hb (b - a + 1).toNat fuel a split (splitDesignator_range hL).1
    (by omega) hfuel
  rw [expandElems]
  simp only [stringsCut_append R hLdash, hL, hR, ne_eq, not_true_eq_false, if_false, hloop]

theorem not_mem_range_elem {c : Char} {L R : Str} (hc : c ≠ '-') (hL : c ∉ L) (hR : c ∉ R) :
    c ∉ L ++ '-' :: R := by
  simp [hL, hR, hc]


/-! ## The designator-range expander -/

/-- C1: an ascending range `L-R` whose sides split to `(p, a)` and `(p, b)` with
`a ≤ b` and `b` below the largest `int` expands, once the fuel exceeds the number
of designators, to the `b - a + 1` designators `p ++ a`, ..., `p ++ b` in ascending
order, joined by commas, with a nil error. -/
theorem expandRanges_ascending_range (Number : Char → Bool) (fuel : Nat) (L R p : Str)
    (a b : Int) (hLdash : '-' ∉ L) (hLcomma : ',' ∉ L) (hRcomma : ',' ∉ R)
    (hL : splitDesignator Number L = .ok (p, a)) (hR : splitDesignator Number R = .ok (p, b))
    (hab : a ≤ b) (hb : b < maxInt) (hfuel : (b - a + 1).toNat < fuel) :
    ((List.range (b - a + 1).toNat).map (fun (k : Nat) => p ++ formatInt (a + (k : Int)))).length
        = (b - a + 1).toNat ∧
      expandRanges Number fuel (L ++ '-' :: R) =
        some (stringsJoin ((List.range (b - a + 1).toNat).map
          (fun (k : Nat) => p ++ formatInt (a + (k : Int)))) ",".toList, none) := by
  refine ⟨by simp, ?_⟩
  have hsplit : stringsSplit (L ++ '-' :: R) ',' = [L ++ '-' :: R] :=
    stringsSplit_of_not_mem (not_mem_range_elem (by decide) hLcomma hRcomma)
  unfold expandRanges
  rw [hsplit, expandElems_range_cons Number fuel L R p a b hLdash hL hR (by omega) hb hfuel]
  simp [expandElems]

/-- Witness of C1: `C1-C3` expands to `C1,C2,C3` and `R10-R10` to `R10`. -/
theorem expandRanges_ascending_range_witness :
    expandRanges (fun _ => false) 4 "C1-C3".toList = some ("C1,C2,C3".toList, none) ∧
      expandRanges (fun _ => false) 2 "R10-R10".toList = some ("R10".toList, none) :=
  ⟨(expandRanges_ascending_range (fun _ => false) 4 "C1".toList "C3".toList "C".toList 1 3
      (by decide) (by decide) (by decide) rfl rfl (by decide) (by decide) (by decide)).2,
    (expandRanges_ascending_range (fun _ => false) 2 "R10".toList "R10".toList "R".toList 10 10
      (by decide) (by decide) (by decide) rfl rfl (by decide) (by decide) (by decide)).2⟩


/-- A well-formed element (a single designator, or an ascending range below the
largest `int`) is comma-free, and on top of any accumulator and before any rest
it appends a non-empty group of designators, the same group whatever the fuel
above a bound. -/
theorem expandElems_wellFormed_cons (Number : Char → Bool) (e : Str)
    (h : PlainElem e ∨ AscendingRange Number (maxInt - 1) e) :
    ',' ∉ e ∧ ∃ (n : Nat) (ds : List Str), ds ≠ [] ∧ ∀ fuel, n ≤ fuel → ∀ rest split,
      expandElems Number fuel (e :: rest) split = expandElems Number fuel rest (split ++ ds) := by
  rcases h with ⟨hdash, hcomma⟩ | ⟨L, R, p, a, b, rfl, hLdash, hLcomma, hRcomma, hL, hR, hab, hb⟩
  · refine ⟨hcomma, 0, [e], by simp, ?_⟩
    intro fuel _ rest split
    rw [expandElems]
    simp only [stringsCut_eq_none hdash]
  · refine ⟨not_mem_range_elem (by decide) hLcomma hRcomma, (b - a + 1).toNat + 1,
      (List.range (b - a + 1).toNat).map (fun (k : Nat) => p ++ formatInt (a + (k : Int))), ?_, ?_⟩
    · have : (b - a + 1).toNat ≠ 0 := by omega
      simpa using this
    · intro fuel hfuel rest split
      exact expandElems_range_cons Number fuel L R p a b hLdash hL hR (by omega)
        (by omega) (by omega) rest split

/-- A list of well-formed elements expands group by group. -/
theorem expandElems_wellFormed (Number : Char → Bool) :
    ∀ (es : List Str), (∀ e ∈ es, PlainElem e ∨ AscendingRange Number (maxInt - 1) e) →
      ∃ (n : Nat) (dss : List (List Str)), (∀ ds ∈ dss, ds ≠ []) ∧ ∀ fuel, n ≤ fuel →
        (∀ split, expandElems Number fuel es split =
          some (stringsJoin (split ++ dss.flatten) ",".toList, none)) ∧
        List.Forall₂ (fun e ds => expandRanges Number fuel e =
          some (stringsJoin ds ",".toList, none)) es dss := by
  intro es
  induction es with
  | nil =>
    intro _
    exact ⟨0, [], by simp, fun fuel _ => ⟨fun split => by simp [expandElems], List.Forall₂.nil⟩⟩
  | cons e es ih =>
    intro h
    obtain ⟨n, dss, hne, hdss⟩ := ih (fun x hx => h x (List.mem_cons_of_mem _ hx))
    obtain ⟨hcomma, m, ds, hds, hstep⟩ := expandElems_wellFormed_cons Number e (h e (by simp))
    refine ⟨max n m, ds :: dss, ?_, ?_⟩
    · intro x hx
      rcases List.mem_cons.1 hx with rfl | hx
      · exact hds
      · exact hne x hx
    · intro fuel hfuel
      have hn : n ≤ fuel := le_trans (le_max_left _ _) hfuel
      have hm : m ≤ fuel := le_trans (le_max_right _ _) hfuel
      refine ⟨?_, List.Forall₂.cons ?_ (hdss fuel hn).2⟩
      · intro split
        rw [hstep fuel hm, (hdss fuel hn).1]
        simp
      · unfold expandRanges
        rw [stringsSplit_of_not_mem hcomma, hstep fuel hm]
        simp [expandElems]

/-- C2 (amended): for a non-empty list of elements, each a dash-free, comma-free
string or an ascending range whose high number is below the largest `int`, the
expansion of the comma-joined list succeeds for every fuel above a bound and is the
per-element expansions joined by commas in the original order. -/
theorem expandRanges_flattens_in_order (Number : Char → Bool) (es : List Str) (hes : es ≠ [])
    (h : ∀ e ∈ es, PlainElem e ∨ AscendingRange Number (maxInt - 1) e) :
    ∃ (n : Nat), ∀ fuel, n ≤ fuel → ∃ (outs : List Str),
      List.Forall₂ (fun e out => expandRanges Number fuel e = some (out, none)) es outs ∧
      expandRanges Number fuel (stringsJoin es ",".toList) =
        some (stringsJoin outs ",".toList, none) := by
  obtain ⟨n, dss, hne, hdss⟩ := expandElems_wellFormed Number es h
  refine ⟨n, fun fuel hfuel => ⟨dss.map (fun ds => stringsJoin ds ",".toList), ?_, ?_⟩⟩
  · have := (hdss fuel hfuel).2
    rw [List.forall₂_map_right_iff]
    exact this
  · have hcomma : ∀ e ∈ es, ',' ∉ e := fun e he =>
      (expandElems_wellFormed_cons Number e (h e he)).1
    unfold expandRanges
    have hsplit : stringsSplit (stringsJoin es ",".toList) ',' = es :=
      stringsSplit_stringsJoin es hes hcomma
    rw [hsplit, (hdss fuel hfuel).1, List.nil_append, stringsJoin_flatten _ dss hne]

/-- Witness of C2 (amended): `R5,C1-C2,R7`. -/
theorem expandRanges_flattens_in_order_witness :
    ∃ (n : Nat), ∀ fuel, n ≤ fuel → ∃ (outs : List Str),
      List.Forall₂ (fun e out => expandRanges (fun _ => false) fuel e = some (out, none))
        ["R5".toList, "C1-C2".toList, "R7".toList] outs ∧
      expandRanges (fun _ => false) fuel "R5,C1-C2,R7".toList =
        some (stringsJoin outs ",".toList, none) :=
  expandRanges_flattens_in_order (fun _ => false) ["R5".toList, "C1-C2".toList, "R7".toList]
    (by simp) (by
      intro e he
      simp only [List.mem_cons, List.mem_singleton, List.not_mem_nil, or_false] at he
      rcases he with rfl | rfl | rfl
      · exact Or.inl ⟨by decide, by decide⟩
      · exact Or.inr ⟨"C1".toList, "C2".toList, "C".toList, 1, 2, rfl, by decide, by decide,
          by decide, rfl, rfl, by decide, by decide⟩
      · exact Or.inl ⟨by decide, by decide⟩)

/-- Counterexample to C2 as stated: the one-element list whose element is the range
from the largest `int` to itself satisfies the claim's conditions (same prefix, low
at most high), and its expansion returns for no amount of fuel. -/
theorem expandRanges_maxInt_range_never_returns :
    AscendingRange (fun _ => false) maxInt
        "C9223372036854775807-C9223372036854775807".toList ∧
      ∀ (fuel : Nat), expandRanges (fun _ => false) fuel
        (stringsJoin ["C9223372036854775807-C9223372036854775807".toList] ",".toList) = none := by
  have hs : splitDesignator (fun _ => false) "C9223372036854775807".toList
      = .ok ("C".toList, maxInt) := by rfl
  refine ⟨⟨"C9223372036854775807".toList, "C9223372036854775807".toList, "C".toList, maxInt,
    maxInt, rfl, by decide, by decide, by decide, hs, hs, le_refl _, le_refl _⟩, ?_⟩
  intro fuel
  have hsplit : stringsSplit
      (stringsJoin ["C9223372036854775807-C9223372036854775807".toList] ",".toList) ','
      = ["C9223372036854775807".toList ++ '-' :: "C9223372036854775807".toList] := by rfl
  unfold expandRanges
  rw [hsplit, expandElems]
  simp only [stringsCut_append _ (show '-' ∉ "C9223372036854775807".toList by decide), hs,
    ne_eq, not_true_eq_false, if_false, rangeLoop_maxInt _ fuel maxInt [] (le_refl _)]

/-- C3: an input without any dash is returned unchanged with a nil error, whatever
its elements are, for every amount of fuel. -/
theorem expandRanges_dash_free (Number : Char → Bool) (fuel : Nat) (s : Str) (h : '-' ∉ s) :
    expandRanges Number fuel s = some (s, none) := by
  unfold expandRanges
  rw [expandElems_plain Number fuel _ _
    (fun e he hx => h (mem_of_mem_stringsSplit s e he hx))]
  simp only [List.nil_append]
  exact congrArg (fun t => some (t, none)) (stringsJoin_stringsSplit s ',')

/-- Witness of C3: the empty string and a list with an empty element. -/
theorem expandRanges_dash_free_witness :
    expandRanges (fun _ => false) 0 [] = some ([], none) ∧
      expandRanges (fun _ => false) 0 "R5,,x".toList = some ("R5,,x".toList, none) :=
  ⟨expandRanges_dash_free (fun _ => false) 0 [] (by decide),
    expandRanges_dash_free (fun _ => false) 0 "R5,,x".toList (by decide)⟩

/-- C4, the code at the failing input: for `C1-CX` the second side `CX` does not
split, and `expandRanges` returns the empty string with a nil error instead of an
"invalid designator" error. -/
theorem expandRanges_malformed_second_side (Number : Char → Bool) (fuel : Nat) :
    splitDesignator Number "CX".toList = .error (invalidDesignator "CX".toList) ∧
      expandRanges Number fuel "C1-CX".toList = some ([], none) :=
  ⟨rfl, rfl⟩

/-- C5: when the first dash element `L-R` of the input has sides that split to
different prefixes, `expandRanges` returns the empty string and the error
`invalid designator: L-R`, for every amount of fuel. The elements before it have
no dash; those after it are arbitrary. -/
theorem expandRanges_prefix_mismatch (Number : Char → Bool) (fuel : Nat)
    (pre post : List Str) (L R p1 p2 : Str) (a b : Int)
    (hpre : ∀ e ∈ pre, '-' ∉ e ∧ ',' ∉ e) (hpost : ∀ e ∈ post, ',' ∉ e)
    (hLdash : '-' ∉ L) (hLcomma : ',' ∉ L) (hRcomma : ',' ∉ R)
    (hL : splitDesignator Number L = .ok (p1, a)) (hR : splitDesignator Number R = .ok (p2, b))
    (hne : p1 ≠ p2) :
    expandRanges Number fuel (stringsJoin (pre ++ (L ++ '-' :: R) :: post) ",".toList) =
      some ([], some ("invalid designator: ".toList ++ (L ++ '-' :: R))) := by
  have hcomma : ∀ e ∈ pre ++ (L ++ '-' :: R) :: post, ',' ∉ e := by
    intro e he
    rcases List.mem_append.1 he with he | he
    · exact (hpre e he).2
    · rcases List.mem_cons.1 he with rfl | he
      · exact not_mem_range_elem (by decide) hLcomma hRcomma
      · exact hpost e he
  have hsplit : stringsSplit (stringsJoin (pre ++ (L ++ '-' :: R) :: post) ",".toList) ','
      = pre ++ (L ++ '-' :: R) :: post := stringsSplit_stringsJoin _ (by simp) hcomma
  unfold expandRanges
  rw [hsplit,
    expandElems_plain_append Number fuel _ pre [] (fun e he => (hpre e he).1), expandElems]
  simp only [stringsCut_append R hLdash, hL, hR, ne_eq, hne, not_false_eq_true, if_true,
    invalidDesignator]

/-- Witness of C5: `C1-R3`, alone and inside a list. -/
theorem expandRanges_prefix_mismatch_witness :
    expandRanges (fun _ => false) 0 "C1-R3".toList =
        some ([], some "invalid designator: C1-R3".toList) ∧
      expandRanges (fun _ => false) 0 "R5,C1-R3,C2-C4".toList =
        some ([], some "invalid designator: C1-R3".toList) :=
  ⟨expandRanges_prefix_mismatch (fun _ => false) 0 [] [] "C1".toList "R3".toList
      "C".toList "R".toList 1 3 (by simp) (by simp) (by decide) (by decide) (by decide)
      rfl rfl (by decide),
    expandRanges_prefix_mismatch (fun _ => false) 0 ["R5".toList] ["C2-C4".toList]
      "C1".toList "R3".toList "C".toList "R".toList 1 3
      (by simp) (by simp) (by decide) (by decide) (by decide)
      rfl rfl (by decide)⟩


/-! ## Facts about the placement loop -/

section Loop

variable {α : Type} [Zero α] [Sub α] [Add α] [Mul α] [Div α] [Neg α] [OfNat α 180]

/-- Records whose body succeeds move their output to the written records. -/
theorem cplLoop_append (lib : FloatLib α) (fixups : FixupSet α) (final dstErr : Option Str)
    (rest : List CPLRecord) :
    ∀ (pre : List CPLRecord) (ws written : List (List Str)),
      List.Forall₂ (fun r w => cplRow lib fixups r = .ok w) pre ws →
      cplLoop lib fixups final dstErr (pre ++ rest) written =
        cplLoop lib fixups final dstErr rest (written ++ ws) := by
  intro pre ws written h
  induction h generalizing written with
  | nil => simp
  | cons hr _ ih =>
    simp only [List.cons_append]
    rw [cplLoop]
    simp only [hr]
    rw [ih]
    simp

/-- The loop only appends to the written records. -/
theorem cplLoop_prefix (lib : FloatLib α) (fixups : FixupSet α) (final dstErr : Option Str) :
    ∀ (rest : List CPLRecord) (written : List (List Str)),
      ∃ tail, (cplLoop lib fixups final dstErr rest written).1 = written ++ tail := by
  intro rest
  induction rest with
  | nil =>
    intro written
    refine ⟨[], ?_⟩
    unfold cplLoop
    cases final <;> simp
  | cons r rest ih =>
    intro written
    unfold cplLoop
    cases hr : cplRow lib fixups r with
    | error e => exact ⟨[], by simp⟩
    | ok out =>
      obtain ⟨tail, ht⟩ := ih (written ++ [out])
      exact ⟨out :: tail, by simp [ht]⟩

theorem exists_outputs (lib : FloatLib α) (fixups : FixupSet α) :
    ∀ (pre : List CPLRecord), (∀ p ∈ pre, ∃ w, cplRow lib fixups p = .ok w) →
      ∃ ws, List.Forall₂ (fun r w => cplRow lib fixups r = .ok w) pre ws := by
  intro pre
  induction pre with
  | nil => intro _; exact ⟨[], List.Forall₂.nil⟩
  | cons p pre ih =>
    intro h
    obtain ⟨w, hw⟩ := h p (by simp)
    obtain ⟨ws, hws⟩ := ih (fun x hx => h x (List.mem_cons_of_mem _ hx))
    exact ⟨w :: ws, List.Forall₂.cons hw hws⟩

/-- A record that the loop reaches, and whose body succeeds, is written right after
the outputs of the records before it. -/
theorem convertCPL_reaches (lib : FloatLib α) (fixups : FixupSet α) (src : CPLSource)
    (dstErr : Option Str) (pre post : List CPLRecord) (r : CPLRecord) (out : List Str)
    (hheader : src.header = .ok cplHeader) (hrows : src.rows = pre ++ r :: post)
    (hpre : ∀ p ∈ pre, ∃ w, cplRow lib fixups p = .ok w)
    (hr : cplRow lib fixups r = .ok out) :
    ∃ (ws tail : List (List Str)), ws.length = pre.length ∧
      (convertCPL lib fixups src dstErr).1 = cplOutHeader :: (ws ++ out :: tail) := by
  obtain ⟨ws, hws⟩ := exists_outputs lib fixups pre hpre
  obtain ⟨tail, ht⟩ := cplLoop_prefix lib fixups src.final dstErr post
    ([cplOutHeader] ++ ws ++ [out])
  refine ⟨ws, tail, hws.length_eq.symm, ?_⟩
  unfold convertCPL
  simp only [hheader, ne_eq, not_true_eq_false, if_false, hrows]
  rw [cplLoop_append lib fixups src.final dstErr _ pre ws _ hws, cplLoop]
  simp only [hr]
  rw [ht]
  simp

end Loop


/-! ## The placement converter -/

/-- C6: over exact real arithmetic, for a record that the loop reaches, with parsed
rotation `rot0`, parsed position `(posX, posY)` and a fixup `{d, ox, oy}` for its
designator, the values written are the rotation
`rotFinal = (if bottom then 180 - rot0 else rot0) - d` and the position
`(posX - dx, posY - dy)`, where `t = rotFinal * π / 180`,
`dx0 = cos t * ox - sin t * oy`, `dy = sin t * ox + cos t * oy` and `dx` is `-dx0` on
the bottom side and `dx0` otherwise. -/
theorem convertCPL_compensation (lib : FloatLib ℝ) (fixups : FixupSet ℝ) (src : CPLSource)
    (dstErr : Option Str) (pre post : List CPLRecord) (r : CPLRecord)
    (rot0 posX posY d ox oy : ℝ)
    (hsincos : lib.Sincos = fun t => (Real.sin t, Real.cos t)) (hpi : lib.Pi = Real.pi)
    (hheader : src.header = .ok cplHeader) (hrows : src.rows = pre ++ r :: post)
    (hpre : ∀ p ∈ pre, ∃ w, cplRow lib fixups p = .ok w)
    (hrot : parseField lib r.Rot = some rot0) (hposx : parseField lib r.PosX = some posX)
    (hposy : parseField lib r.PosY = some posY)
    (hfix : fixups r.Ref = some ⟨d, ox, oy⟩) :
    let rotFinal := (if r.Side = "bottom".toList then 180 - rot0 else rot0) - d
    let t := rotFinal * Real.pi / 180
    let dx0 := Real.cos t * ox - Real.sin t * oy
    let dy := Real.sin t * ox + Real.cos t * oy
    let dx := if r.Side = "bottom".toList then -dx0 else dx0
    cplValues lib fixups r.Ref r.Side rot0 posX posY = (posX - dx, posY - dy, rotFinal) ∧
      ∃ (ws tail : List (List Str)), ws.length = pre.length ∧
        (convertCPL lib fixups src dstErr).1 = cplOutHeader :: (ws ++
          [r.Ref, r.Val, r.Package, lib.Sprintf (posX - dx), lib.Sprintf (posY - dy),
            lib.Sprintf rotFinal, r.Side] :: tail) := by
  intro rotFinal t dx0 dy dx
  have ht : rotFinal / 180 * Real.pi = t := by
    simp only [t]
    ring
  have hvalues : cplValues lib fixups r.Ref r.Side rot0 posX posY
      = (posX - dx, posY - dy, rotFinal) := by
    simp only [cplValues, hfix, compensate, hsincos, hpi]
    rw [ht]
  refine ⟨hvalues, ?_⟩
  apply convertCPL_reaches lib fixups src dstErr pre post r _ hheader hrows hpre
  simp only [cplRow, hrot, hposx, hposy, hvalues]

/-- Witness of C6: rotation 30 on the bottom side with the fixup `{10, 1, 0}` gives
the rotation 140 and the position `(posX + cos 140°, posY - sin 140°)`. -/
theorem convertCPL_compensation_witness :
    cplValues
        (⟨fun s => (Atoi s).map (fun (i : Int) => (i : ℝ)), fun t => (Real.sin t, Real.cos t),
          Real.pi, fun _ => []⟩ : FloatLib ℝ)
        (fun _ => some ⟨10, 1, 0⟩) "U1".toList "bottom".toList 30 5 7
      = (5 + Real.cos (140 * Real.pi / 180), 7 - Real.sin (140 * Real.pi / 180), 140) := by
  have h := (convertCPL_compensation
    (⟨fun s => (Atoi s).map (fun (i : Int) => (i : ℝ)), fun t => (Real.sin t, Real.cos t),
      Real.pi, fun _ => []⟩ : FloatLib ℝ)
    (fun _ => some ⟨10, 1, 0⟩) ⟨.ok cplHeader, [⟨"U1".toList, "MCU".toList, "QFN".toList,
      "5".toList, "7".toList, "30".toList, "bottom".toList, 2⟩], none⟩ none [] []
    ⟨"U1".toList, "MCU".toList, "QFN".toList, "5".toList, "7".toList, "30".toList,
      "bottom".toList, 2⟩ 30 5 7 10 1 0 rfl rfl rfl rfl (by simp)
    (by
      have h30 : Atoi ['3', '0'] = some 30 := by rfl
      simp [parseField, h30])
    (by
      have h5 : Atoi ['5'] = some 5 := by rfl
      simp [parseField, h5])
    (by
      have h7 : Atoi ['7'] = some 7 := by rfl
      simp [parseField, h7])
    rfl).1
  rw [h]
  norm_num


/-- Counterexample to C7 as stated: on the bottom side the zero fixup leaves the
position alone but turns the rotation 30 into 150, over the reals and in a run of
`convertCPL` on the record `U1,MCU,QFN,5,7,30,bottom`. -/
theorem cplValues_zero_fixup_bottom :
    cplValues
        (⟨fun s => (Atoi s).map (fun (i : Int) => (i : ℝ)), fun t => (Real.sin t, Real.cos t),
          Real.pi, fun _ => []⟩ : FloatLib ℝ)
        (fun _ => some ⟨0, 0, 0⟩) "U1".toList "bottom".toList 30 5 7 = (5, 7, 150) ∧
      (150 : ℝ) ≠ 30 ∧
      convertCPL
        (⟨fun s => (Atoi s).map (fun (i : Int) => (i : ℚ)), fun _ => (0, 1), 3,
          fun q => formatInt q.floor⟩ : FloatLib ℚ)
        (fun _ => some ⟨0, 0, 0⟩)
        ⟨.ok cplHeader, [⟨"U1".toList, "MCU".toList, "QFN".toList, "5".toList, "7".toList,
          "30".toList, "bottom".toList, 2⟩], none⟩ none =
        ([cplOutHeader, ["U1".toList, "MCU".toList, "QFN".toList, "5".toList, "7".toList,
          "150".toList, "bottom".toList]], none) := by
  refine ⟨?_, by norm_num, ?_⟩
  · simp [cplValues, compensate]
    norm_num
  · have h30 : Atoi ['3', '0'] = some 30 := by rfl
    have h5 : Atoi ['5'] = some 5 := by rfl
    have h7 : Atoi ['7'] = some 7 := by rfl
    have hf5 : formatInt (Rat.floor 5) = ['5'] := by rfl
    have hf7 : formatInt (Rat.floor 7) = ['7'] := by rfl
    have hf150 : formatInt (Rat.floor 150) = ['1', '5', '0'] := by rfl
    have hq : (180 : ℚ) - 30 = 150 := by norm_num
    simp [convertCPL, cplLoop, cplRow, parseField, cplValues, compensate, h30, h5, h7, hq,
      hf5, hf7, hf150]

/-- C7 (amended): over exact arithmetic (any field, any `Sincos`), for a record that
the loop reaches and whose designator has the fixup `{0, 0, 0}`, the position written
is the parsed position on either side, and the rotation written is the parsed
rotation `rot0` when the side is not `bottom` and `180 - rot0` when it is. -/
theorem convertCPL_zero_fixup {α : Type} [Field α] (lib : FloatLib α) (fixups : FixupSet α)
    (src : CPLSource) (dstErr : Option Str) (pre post : List CPLRecord) (r : CPLRecord)
    (rot0 posX posY : α)
    (hheader : src.header = .ok cplHeader) (hrows : src.rows = pre ++ r :: post)
    (hpre : ∀ p ∈ pre, ∃ w, cplRow lib fixups p = .ok w)
    (hrot : parseField lib r.Rot = some rot0) (hposx : parseField lib r.PosX = some posX)
    (hposy : parseField lib r.PosY = some posY)
    (hfix : fixups r.Ref = some ⟨0, 0, 0⟩) :
    cplValues lib fixups r.Ref r.Side rot0 posX posY =
        (posX, posY, if r.Side = "bottom".toList then 180 - rot0 else rot0) ∧
      ∃ (ws tail : List (List Str)), ws.length = pre.length ∧
        (convertCPL lib fixups src dstErr).1 = cplOutHeader :: (ws ++
          [r.Ref, r.Val, r.Package, lib.Sprintf posX, lib.Sprintf posY,
            lib.Sprintf (if r.Side = "bottom".toList then 180 - rot0 else rot0),
            r.Side] :: tail) := by
  have hvalues : cplValues lib fixups r.Ref r.Side rot0 posX posY =
      (posX, posY, if r.Side = "bottom".toList then 180 - rot0 else rot0) := by
    simp only [cplValues, hfix, compensate]
    by_cases hs : r.Side = "bottom".toList <;> simp [hs]
  refine ⟨hvalues, ?_⟩
  apply convertCPL_reaches lib fixups src dstErr pre post r _ hheader hrows hpre
  simp only [cplRow, hrot, hposx, hposy, hvalues]

/-- Witness of C7 (amended): a top-side record with the zero fixup keeps rotation 30
and position `(5, 7)`. -/
theorem convertCPL_zero_fixup_witness :
    cplValues
        (⟨fun s => (Atoi s).map (fun (i : Int) => (i : ℝ)), fun t => (Real.sin t, Real.cos t),
          Real.pi, fun _ => []⟩ : FloatLib ℝ)
        (fun _ => some ⟨0, 0, 0⟩) "U1".toList "top".toList 30 5 7 = (5, 7, 30) := by
  have h := (convertCPL_zero_fixup
    (⟨fun s => (Atoi s).map (fun (i : Int) => (i : ℝ)), fun t => (Real.sin t, Real.cos t),
      Real.pi, fun _ => []⟩ : FloatLib ℝ)
    (fun _ => some ⟨0, 0, 0⟩) ⟨.ok cplHeader, [⟨"U1".toList, "MCU".toList, "QFN".toList,
      "5".toList, "7".toList, "30".toList, "top".toList, 2⟩], none⟩ none [] []
    ⟨"U1".toList, "MCU".toList, "QFN".toList, "5".toList, "7".toList, "30".toList,
      "top".toList, 2⟩ 30 5 7 rfl rfl (by simp)
    (by
      have h30 : Atoi ['3', '0'] = some 30 := by rfl
      simp [parseField, h30])
    (by
      have h5 : Atoi ['5'] = some 5 := by rfl
      simp [parseField, h5])
    (by
      have h7 : Atoi ['7'] = some 7 := by rfl
      simp [parseField, h7])
    rfl).1
  rw [h]
  simp

section Rows

variable {α : Type} [Zero α] [Sub α] [Add α] [Mul α] [Div α] [Neg α] [OfNat α 180]

/-- C8: a record that the loop reaches, whose designator is not a key of the fixup
set and whose three numeric fields parse, is written with the parsed `PosX`, `PosY`
and `Rot` values in the `Mid X`, `Mid Y` and `Rotation` columns, whatever its side.
The parsed value of a field is the result of `ParseFloat`, or zero for an empty
field. -/
theorem convertCPL_no_fixup (lib : FloatLib α) (fixups : FixupSet α)
    (src : CPLSource) (dstErr : Option Str) (pre post : List CPLRecord) (r : CPLRecord)
    (rot0 posX posY : α)
    (hheader : src.header = .ok cplHeader) (hrows : src.rows = pre ++ r :: post)
    (hpre : ∀ p ∈ pre, ∃ w, cplRow lib fixups p = .ok w)
    (hrot : parseField lib r.Rot = some rot0) (hposx : parseField lib r.PosX = some posX)
    (hposy : parseField lib r.PosY = some posY)
    (hfix : fixups r.Ref = none) :
    cplValues lib fixups r.Ref r.Side rot0 posX posY = (posX, posY, rot0) ∧
      ∃ (ws tail : List (List Str)), ws.length = pre.length ∧
        (convertCPL lib fixups src dstErr).1 = cplOutHeader :: (ws ++
          [r.Ref, r.Val, r.Package, lib.Sprintf posX, lib.Sprintf posY, lib.Sprintf rot0,
            r.Side] :: tail) := by
  have hvalues : cplValues lib fixups r.Ref r.Side rot0 posX posY = (posX, posY, rot0) := by
    simp only [cplValues, hfix]
  refine ⟨hvalues, ?_⟩
  apply convertCPL_reaches lib fixups src dstErr pre post r _ hheader hrows hpre
  simp only [cplRow, hrot, hposx, hposy, hvalues]

end Rows

/-- Witness of C8: a bottom-side record without a fixup, after a top-side one. -/
theorem convertCPL_no_fixup_witness :
    ∃ (ws tail : List (List Str)), ws.length = 1 ∧
      (convertCPL
        (⟨fun s => (Atoi s).map (fun (i : Int) => (i : ℚ)), fun _ => (0, 1), 3,
          fun q => formatInt q.floor⟩ : FloatLib ℚ)
        (fun _ => none)
        ⟨.ok cplHeader, [⟨"R1".toList, "10k".toList, "0402".toList, "1".toList,
            "2".toList, "90".toList, "top".toList, 2⟩,
          ⟨"U1".toList, "MCU".toList, "QFN".toList, "5".toList, "7".toList, "30".toList,
            "bottom".toList, 3⟩], none⟩ none).1 =
        cplOutHeader :: (ws ++ ["U1".toList, "MCU".toList, "QFN".toList, "5".toList,
          "7".toList, "30".toList, "bottom".toList] :: tail) :=
  (convertCPL_no_fixup
    (⟨fun s => (Atoi s).map (fun (i : Int) => (i : ℚ)), fun _ => (0, 1), 3,
      fun q => formatInt q.floor⟩ : FloatLib ℚ)
    (fun _ => none)
    ⟨.ok cplHeader, [⟨"R1".toList, "10k".toList, "0402".toList, "1".toList,
        "2".toList, "90".toList, "top".toList, 2⟩,
      ⟨"U1".toList, "MCU".toList, "QFN".toList, "5".toList, "7".toList, "30".toList,
        "bottom".toList, 3⟩], none⟩ none
    [⟨"R1".toList, "10k".toList, "0402".toList, "1".toList,
        "2".toList, "90".toList, "top".toList, 2⟩] []
    ⟨"U1".toList, "MCU".toList, "QFN".toList, "5".toList, "7".toList, "30".toList,
        "bottom".toList, 3⟩ 30 5 7 rfl rfl
    (by
      intro p hp
      simp only [List.mem_singleton] at hp
      subst hp
      exact ⟨_, rfl⟩)
    (by rfl) (by rfl) (by rfl) rfl).2


theorem parseField_eq_none_iff {α : Type} [Zero α] (lib : FloatLib α) (field : Str) :
    parseField lib field = none ↔ malformedField lib field = true := by
  unfold parseField malformedField
  by_cases h : field = []
  · simp [h]
  · simp [h]

section Errors

variable {α : Type} [Zero α] [Sub α] [Add α] [Mul α] [Div α] [Neg α] [OfNat α 180]

theorem cplRow_of_malformed (lib : FloatLib α) (fixups : FixupSet α) (r : CPLRecord)
    (h : malformedRecord lib r = true) :
    cplRow lib fixups r = .error (invalidPosition r.line r.PosX r.PosY r.Rot) := by
  unfold malformedRecord at h
  simp only [Bool.or_eq_true, ← parseField_eq_none_iff] at h
  unfold cplRow
  rcases h with (h | h) | h
  · simp [h]
  · cases hrot : parseField lib r.Rot <;> simp [h]
  · cases hrot : parseField lib r.Rot <;> cases hx : parseField lib r.PosX <;> simp [h]

theorem cplRow_of_not_malformed (lib : FloatLib α) (fixups : FixupSet α) (r : CPLRecord)
    (h : malformedRecord lib r = false) :
    ∃ x y rot, cplRow lib fixups r = .ok [r.Ref, r.Val, r.Package, x, y, rot, r.Side] := by
  have key : ∀ f, malformedField lib f = false → ∃ v, parseField lib f = some v := by
    intro f hf
    cases hp : parseField lib f with
    | none => rw [(parseField_eq_none_iff lib f).1 hp] at hf; cases hf
    | some v => exact ⟨v, rfl⟩
  unfold malformedRecord at h
  simp only [Bool.or_eq_false_iff] at h
  obtain ⟨⟨hrot, hx⟩, hy⟩ := h
  obtain ⟨rot, hrot⟩ := key _ hrot
  obtain ⟨x, hx⟩ := key _ hx
  obtain ⟨y, hy⟩ := key _ hy
  refine ⟨lib.Sprintf (cplValues lib fixups r.Ref r.Side rot x y).1,
    lib.Sprintf (cplValues lib fixups r.Ref r.Side rot x y).2.1,
    lib.Sprintf (cplValues lib fixups r.Ref r.Side rot x y).2.2, ?_⟩
  simp only [cplRow, hrot, hx, hy]

theorem cplRow_ok_shape (lib : FloatLib α) (fixups : FixupSet α) (r : CPLRecord)
    (w : List Str) (h : cplRow lib fixups r = .ok w) :
    malformedRecord lib r = false ∧
      ∃ x y rot, w = [r.Ref, r.Val, r.Package, x, y, rot, r.Side] := by
  cases hm : malformedRecord lib r with
  | true => rw [cplRow_of_malformed lib fixups r hm] at h; cases h
  | false =>
    obtain ⟨x, y, rot, hxy⟩ := cplRow_of_not_malformed lib fixups r hm
    rw [hxy] at h
    cases h
    exact ⟨rfl, x, y, rot, rfl⟩

/-- With a reader that reaches `io.EOF` and a writer without error, the loop returns
an error exactly when some record is malformed. -/
theorem cplLoop_err_iff (lib : FloatLib α) (fixups : FixupSet α) :
    ∀ (rows : List CPLRecord) (written : List (List Str)),
      (cplLoop lib fixups none none rows written).2 ≠ none ↔
        ∃ r ∈ rows, malformedRecord lib r = true := by
  intro rows
  induction rows with
  | nil => intro written; simp [cplLoop]
  | cons r rows ih =>
    intro written
    unfold cplLoop
    cases hm : malformedRecord lib r with
    | true =>
      rw [cplRow_of_malformed lib fixups r hm]
      simp [hm]
    | false =>
      obtain ⟨x, y, rot, hxy⟩ := cplRow_of_not_malformed lib fixups r hm
      rw [hxy]
      simp only [ih, List.mem_cons, exists_eq_or_imp, hm, Bool.false_eq_true, false_or]

/-- On success the loop has written one record per input record, in order, with the
four text columns copied. -/
theorem cplLoop_success (lib : FloatLib α) (fixups : FixupSet α) (final dstErr : Option Str) :
    ∀ (rows : List CPLRecord) (written : List (List Str)),
      (cplLoop lib fixups final dstErr rows written).2 = none →
      ∃ outs, (cplLoop lib fixups final dstErr rows written).1 = written ++ outs ∧
        List.Forall₂ (fun (r : CPLRecord) (w : List Str) =>
          ∃ x y rot, w = [r.Ref, r.Val, r.Package, x, y, rot, r.Side]) rows outs := by
  intro rows
  induction rows with
  | nil =>
    intro written h
    refine ⟨[], ?_, List.Forall₂.nil⟩
    unfold cplLoop
    cases final <;> simp
  | cons r rows ih =>
    intro written h
    unfold cplLoop at h ⊢
    cases hr : cplRow lib fixups r with
    | error e => simp [hr] at h
    | ok out =>
      simp only [hr] at h ⊢
      obtain ⟨outs, houts, hall⟩ := ih _ h
      exact ⟨out :: outs, by simp [houts],
        List.Forall₂.cons (cplRow_ok_shape lib fixups r out hr).2 hall⟩

/-- C9 (amended): given a valid header, (1) when the reader delivers every record,
then reports `io.EOF`, and the writer reports no error, `convertCPL` returns an error
iff some record has a non-empty `Rot`, `PosX` or `PosY` field that does not parse; (2) in
every case, at the first such record the result is the error whose message holds the
line and the raw `PosX`, `PosY` and `Rot` texts, and the records written are the
header and one record for each earlier input record, none for that record or a later
one. -/
theorem convertCPL_malformed_numeric (lib : FloatLib α) (fixups : FixupSet α)
    (src : CPLSource) (dstErr : Option Str) (hheader : src.header = .ok cplHeader) :
    (src.final = none → dstErr = none →
      ((convertCPL lib fixups src dstErr).2 ≠ none ↔
        ∃ r ∈ src.rows, malformedRecord lib r = true)) ∧
    (∀ (pre post : List CPLRecord) (r : CPLRecord), src.rows = pre ++ r :: post →
      (∀ p ∈ pre, malformedRecord lib p = false) → malformedRecord lib r = true →
      ∃ (ws : List (List Str)),
        List.Forall₂ (fun p w => cplRow lib fixups p = .ok w) pre ws ∧
        convertCPL lib fixups src dstErr =
          (cplOutHeader :: ws, some (invalidPosition r.line r.PosX r.PosY r.Rot)) ∧
        r.PosX <:+: invalidPosition r.line r.PosX r.PosY r.Rot ∧
        r.PosY <:+: invalidPosition r.line r.PosX r.PosY r.Rot ∧
        r.Rot <:+: invalidPosition r.line r.PosX r.PosY r.Rot) := by
  constructor
  · intro hfinal hdst
    unfold convertCPL
    simp only [hheader, ne_eq, not_true_eq_false, if_false, hfinal, hdst]
    exact cplLoop_err_iff lib fixups src.rows [cplOutHeader]
  · intro pre post r hrows hpre hr
    obtain ⟨ws, hws⟩ := exists_outputs lib fixups pre (fun p hp => by
      obtain ⟨x, y, rot, h⟩ := cplRow_of_not_malformed lib fixups p (hpre p hp)
      exact ⟨_, h⟩)
    refine ⟨ws, hws, ?_, ?_, ?_, ?_⟩
    · unfold convertCPL
      simp only [hheader, ne_eq, not_true_eq_false, if_false, hrows]
      rw [cplLoop_append lib fixups src.final dstErr _ pre ws _ hws, cplLoop,
        cplRow_of_malformed lib fixups r hr]
      simp
    · exact ⟨"cps: invalid position on line ".toList ++ formatInt r.line ++ ": ".toList,
        ", ".toList ++ r.PosY ++ ", ".toList ++ r.Rot, by simp [invalidPosition]⟩
    · exact ⟨"cps: invalid position on line ".toList ++ formatInt r.line ++ ": ".toList ++
        r.PosX ++ ", ".toList, ", ".toList ++ r.Rot, by simp [invalidPosition]⟩
    · exact ⟨"cps: invalid position on line ".toList ++ formatInt r.line ++ ": ".toList ++
        r.PosX ++ ", ".toList ++ r.PosY ++ ", ".toList, [], by simp [invalidPosition]⟩

/-- C10: when `convertCPL` succeeds, the records written are the header followed by
exactly one record per input record, in the same order, and each has the input `Ref`,
`Val`, `Package` and `Side` texts in its `Designator`, `Val`, `Package` and `Layer`
columns, whether or not the designator has a fixup. -/
theorem convertCPL_text_columns (lib : FloatLib α) (fixups : FixupSet α)
    (src : CPLSource) (dstErr : Option Str)
    (hok : (convertCPL lib fixups src dstErr).2 = none) :
    ∃ (outs : List (List Str)),
      (convertCPL lib fixups src dstErr).1 = cplOutHeader :: outs ∧
      outs.length = src.rows.length ∧
      List.Forall₂ (fun (r : CPLRecord) (w : List Str) =>
        ∃ x y rot, w = [r.Ref, r.Val, r.Package, x, y, rot, r.Side]) src.rows outs := by
  unfold convertCPL at hok ⊢
  cases hh : src.header with
  | error e => simp [hh] at hok
  | ok rec =>
    simp only [hh] at hok ⊢
    by_cases hrec : rec = cplHeader
    · simp only [hrec, ne_eq, not_true_eq_false, if_false] at hok ⊢
      obtain ⟨outs, houts, hall⟩ := cplLoop_success lib fixups src.final dstErr src.rows _ hok
      exact ⟨outs, by simpa using houts, hall.length_eq.symm, hall⟩
    · simp [hrec] at hok

end Errors


/-- Counterexample to C9 as stated: with a valid header and a single record whose
numeric fields all parse, a reader that then fails (here on a record with the wrong
number of fields) makes `convertCPL` return an error although no record has a
malformed numeric field. -/
theorem convertCPL_reader_error :
    (convertCPL
        (⟨fun s => (Atoi s).map (fun (i : Int) => (i : ℚ)), fun _ => (0, 1), 3,
          fun q => formatInt q.floor⟩ : FloatLib ℚ)
        (fun _ => none)
        ⟨.ok cplHeader, [⟨"R1".toList, "10k".toList, "0402".toList, "1".toList,
            "2".toList, "90".toList, "top".toList, 2⟩],
          some "record on line 3: wrong number of fields".toList⟩ none).2 =
        some "cpl: record on line 3: wrong number of fields".toList ∧
      ¬ ∃ r ∈ [(⟨"R1".toList, "10k".toList, "0402".toList, "1".toList,
            "2".toList, "90".toList, "top".toList, 2⟩ : CPLRecord)],
          malformedRecord
            (⟨fun s => (Atoi s).map (fun (i : Int) => (i : ℚ)), fun _ => (0, 1), 3,
              fun q => formatInt q.floor⟩ : FloatLib ℚ) r = true := by
  refine ⟨rfl, ?_⟩
  intro h
  obtain ⟨r, hr, hm⟩ := h
  simp only [List.mem_singleton] at hr
  subst hr
  exact absurd hm (by decide)

/-- Witness of C9 (amended): the second record has the `PosX` text `1.x`. -/
theorem convertCPL_malformed_numeric_witness :
    (convertCPL
        (⟨fun s => (Atoi s).map (fun (i : Int) => (i : ℚ)), fun _ => (0, 1), 3,
          fun q => formatInt q.floor⟩ : FloatLib ℚ)
        (fun _ => none)
        ⟨.ok cplHeader, [⟨"R1".toList, "10k".toList, "0402".toList, "1".toList,
            "2".toList, "90".toList, "top".toList, 2⟩,
          ⟨"R2".toList, "10k".toList, "0402".toList, "1.x".toList,
            "2".toList, "90".toList, "top".toList, 3⟩], none⟩ none =
        ([cplOutHeader, ["R1".toList, "10k".toList, "0402".toList, "1".toList,
            "2".toList, "90".toList, "top".toList]],
          some "cps: invalid position on line 3: 1.x, 2, 90".toList)) ∧
      ((convertCPL
        (⟨fun s => (Atoi s).map (fun (i : Int) => (i : ℚ)), fun _ => (0, 1), 3,
          fun q => formatInt q.floor⟩ : FloatLib ℚ)
        (fun _ => none)
        ⟨.ok cplHeader, [⟨"R1".toList, "10k".toList, "0402".toList, "1".toList,
            "2".toList, "90".toList, "top".toList, 2⟩,
          ⟨"R2".toList, "10k".toList, "0402".toList, "1.x".toList,
            "2".toList, "90".toList, "top".toList, 3⟩], none⟩ none).2 ≠ none ↔
        ∃ r ∈ [(⟨"R1".toList, "10k".toList, "0402".toList, "1".toList,
            "2".toList, "90".toList, "top".toList, 2⟩ : CPLRecord),
          ⟨"R2".toList, "10k".toList, "0402".toList, "1.x".toList,
            "2".toList, "90".toList, "top".toList, 3⟩],
          malformedRecord
            (⟨fun s => (Atoi s).map (fun (i : Int) => (i : ℚ)), fun _ => (0, 1), 3,
              fun q => formatInt q.floor⟩ : FloatLib ℚ) r = true) :=
  ⟨rfl, (convertCPL_malformed_numeric
    (⟨fun s => (Atoi s).map (fun (i : Int) => (i : ℚ)), fun _ => (0, 1), 3,
      fun q => formatInt q.floor⟩ : FloatLib ℚ)
    (fun _ => none)
    ⟨.ok cplHeader, [⟨"R1".toList, "10k".toList, "0402".toList, "1".toList,
        "2".toList, "90".toList, "top".toList, 2⟩,
      ⟨"R2".toList, "10k".toList, "0402".toList, "1.x".toList,
        "2".toList, "90".toList, "top".toList, 3⟩], none⟩ none rfl).1 rfl rfl⟩

/-- Witness of C10: a run of two records, the second with a fixup. -/
theorem convertCPL_text_columns_witness :
    ∃ (outs : List (List Str)),
      (convertCPL
        (⟨fun s => (Atoi s).map (fun (i : Int) => (i : ℚ)), fun _ => (0, 1), 3,
          fun q => formatInt q.floor⟩ : FloatLib ℚ)
        (fun ref => if ref = "U1".toList then some ⟨90, 0, 0⟩ else none)
        ⟨.ok cplHeader, [⟨"R1".toList, "10k".toList, "0402".toList, "1".toList,
            "2".toList, "90".toList, "top".toList, 2⟩,
          ⟨"U1".toList, "MCU".toList, "QFN".toList, "5".toList, "7".toList, "".toList,
            "bottom".toList, 3⟩], none⟩ none).1 = cplOutHeader :: outs ∧
      outs.length = 2 ∧
      List.Forall₂ (fun (r : CPLRecord) (w : List Str) =>
        ∃ x y rot, w = [r.Ref, r.Val, r.Package, x, y, rot, r.Side])
        [⟨"R1".toList, "10k".toList, "0402".toList, "1".toList,
            "2".toList, "90".toList, "top".toList, 2⟩,
          ⟨"U1".toList, "MCU".toList, "QFN".toList, "5".toList, "7".toList, "".toList,
            "bottom".toList, 3⟩] outs :=
  convertCPL_text_columns
    (⟨fun s => (Atoi s).map (fun (i : Int) => (i : ℚ)), fun _ => (0, 1), 3,
      fun q => formatInt q.floor⟩ : FloatLib ℚ)
    (fun ref => if ref = "U1".toList then some ⟨90, 0, 0⟩ else none)
    ⟨.ok cplHeader, [⟨"R1".toList, "10k".toList, "0402".toList, "1".toList,
        "2".toList, "90".toList, "top".toList, 2⟩,
      ⟨"U1".toList, "MCU".toList, "QFN".toList, "5".toList, "7".toList, "".toList,
        "bottom".toList, 3⟩], none⟩ none rfl

/-! ## Idempotence and descending ranges -/

theorem stringsCut_eq_some {sep : Char} :
    ∀ (s before after : Str), stringsCut s sep = some (before, after) →
      sep ∉ before ∧ s = before ++ sep :: after := by
  intro s
  induction s with
  | nil => intro before after h; simp [stringsCut] at h
  | cons c cs ih =>
    intro before after h
    unfold stringsCut at h
    by_cases hc : c = sep
    · simp only [hc, if_true, Option.some.injEq, Prod.mk.injEq] at h
      obtain ⟨rfl, rfl⟩ := h
      simp [hc]
    · simp only [hc, if_false] at h
      cases hcut : stringsCut cs sep with
      | none => simp [hcut] at h
      | some ba =>
        obtain ⟨b, a⟩ := ba
        simp only [hcut, Option.some.injEq, Prod.mk.injEq] at h
        obtain ⟨rfl, rfl⟩ := h
        obtain ⟨hb, hcs⟩ := ih b _ hcut
        refine ⟨?_, by simp [hcs]⟩
        intro hmem
        rcases List.mem_cons.1 hmem with h1 | h1
        · exact hc h1.symm
        · exact hb h1

theorem not_mem_of_stringsCut_eq_none {sep : Char} :
    ∀ (s : Str), stringsCut s sep = none → sep ∉ s := by
  intro s
  induction s with
  | nil => intro _; simp
  | cons c cs ih =>
    intro h
    unfold stringsCut at h
    by_cases hc : c = sep
    · simp [hc] at h
    · simp only [hc, if_false] at h
      cases hcut : stringsCut cs sep with
      | none =>
        intro hmem
        rcases List.mem_cons.1 hmem with h1 | h1
        · exact hc h1.symm
        · exact ih hcut h1
      | some ba => simp [hcut] at h

theorem mem_stringsJoin {c : Char} (sep : Str) :
    ∀ (es : List Str), c ∈ stringsJoin es sep → c ∈ sep ∨ ∃ e ∈ es, c ∈ e
  | [], h => by simp [stringsJoin] at h
  | [e], h => Or.inr ⟨e, by simp, by simpa [stringsJoin] using h⟩
  | e :: e1 :: es, h => by
    rw [stringsJoin_cons_cons] at h
    simp only [List.mem_append] at h
    rcases h with (h | h) | h
    · exact Or.inr ⟨e, by simp, h⟩
    · exact Or.inl h
    · rcases mem_stringsJoin sep (e1 :: es) h with h | ⟨x, hx, hc⟩
      · exact Or.inl h
      · exact Or.inr ⟨x, List.mem_cons_of_mem _ hx, hc⟩

theorem digitChar_ne_dash (d : Nat) (h : d < 10) : Nat.digitChar d ≠ '-' := by
  interval_cases d <;> decide

theorem toDigitsCore_no_dash :
    ∀ (fuel n : Nat) (acc : List Char), '-' ∉ acc → '-' ∉ Nat.toDigitsCore 10 fuel n acc := by
  intro fuel
  induction fuel with
  | zero => intro n acc h; simpa [Nat.toDigitsCore] using h
  | succ f ih =>
    intro n acc h
    have hacc : '-' ∉ Nat.digitChar (n % 10) :: acc := by
      intro hmem
      rcases List.mem_cons.1 hmem with h1 | h1
      · exact digitChar_ne_dash _ (Nat.mod_lt _ (by decide)) h1.symm
      · exact h h1
    unfold Nat.toDigitsCore
    simp only []
    split
    · exact hacc
    · exact ih _ _ hacc

theorem formatInt_no_dash {i : Int} (h : 0 ≤ i) : '-' ∉ formatInt i := by
  unfold formatInt
  have : ¬ i < 0 := by omega
  simp only [this, if_false]
  exact toDigitsCore_no_dash _ _ [] (by simp)

theorem isNumber_dash (Number : Char → Bool) : IsNumber Number '-' = false := by
  rfl

theorem Atoi_nonneg {c : Char} {cs : Str} {n : Int} (hc : c ≠ '-')
    (h : Atoi (c :: cs) = some n) : 0 ≤ n := by
  unfold Atoi at h
  split at h
  · exact absurd h (by simp)
  · rename_i heq
    simp only [List.cons.injEq] at heq
    exact absurd heq.1 hc
  · split at h
    · exact absurd h (by simp)
    · split at h
      · exact absurd h (by simp)
      · simp only [Option.some.injEq] at h
        omega
  · split at h
    · exact absurd h (by simp)
    · split at h
      · exact absurd h (by simp)
      · simp only [Option.some.injEq] at h
        omega

/-- A designator that splits has a prefix made of its own characters and a
non-negative number. -/
theorem splitDesignatorFrom_ok (Number : Char → Bool) (ref : Str) {p : Str} {n : Int} :
    ∀ (rest before : Str), splitDesignatorFrom Number ref before rest = .ok (p, n) →
      0 ≤ n ∧ ∀ c ∈ p, c ∈ before ∨ c ∈ rest := by
  intro rest
  induction rest with
  | nil => intro before h; simp [splitDesignatorFrom] at h
  | cons c cs ih =>
    intro before h
    unfold splitDesignatorFrom at h
    by_cases hc : IsNumber Number c = true
    · simp only [hc, if_true] at h
      cases ha : Atoi (c :: cs) with
      | none => simp [ha] at h
      | some num =>
        simp only [ha, Except.ok.injEq, Prod.mk.injEq] at h
        obtain ⟨rfl, rfl⟩ := h
        have hne : c ≠ '-' := by
          intro e
          rw [e, isNumber_dash] at hc
          exact absurd hc (by simp)
        exact ⟨Atoi_nonneg hne ha, fun x hx => Or.inl hx⟩
    · simp only [hc] at h
      obtain ⟨hn, hp⟩ := ih _ h
      refine ⟨hn, fun x hx => ?_⟩
      rcases hp x hx with h1 | h1
      · rcases List.mem_append.1 h1 with h2 | h2
        · exact Or.inl h2
        · exact Or.inr (by simp only [List.mem_singleton] at h2; simp [h2])
      · exact Or.inr (List.mem_cons_of_mem _ h1)

theorem splitDesignator_ok {Number : Char → Bool} {ref p : Str} {n : Int}
    (h : splitDesignator Number ref = .ok (p, n)) : 0 ≤ n ∧ ∀ c ∈ p, c ∈ ref := by
  obtain ⟨hn, hp⟩ := splitDesignatorFrom_ok Number ref ref [] h
  exact ⟨hn, fun c hc => (hp c hc).elim (fun h => absurd h (by simp)) id⟩


/-- A range loop that returns has appended only dash-free designators. -/
theorem rangeLoop_dash_free (des1 : Str) (num2 : Int) (hdes : '-' ∉ des1)
    (hnum2 : num2 ≤ maxInt) :
    ∀ (fuel : Nat) (i : Int) (split out : List Str), 0 ≤ i → i ≤ maxInt →
      (∀ e ∈ split, '-' ∉ e) → rangeLoop des1 num2 fuel i split = some out →
      ∀ e ∈ out, '-' ∉ e := by
  intro fuel
  induction fuel with
  | zero => intro i split out _ _ _ h; simp [rangeLoop] at h
  | succ f ih =>
    intro i split out hi0 himax hsplit h
    by_cases hle : i ≤ num2
    · by_cases hmax : i = maxInt
      · have hnum : num2 = maxInt := le_antisymm hnum2 (hmax ▸ hle)
        rw [hnum, rangeLoop_maxInt des1 (f + 1) i split himax] at h
        exact absurd h (by simp)
      · have hlt : i < maxInt := lt_of_le_of_ne himax hmax
        have hw : wrapInt (i + 1) = i + 1 :=
          wrapInt_of_range (by unfold minInt; omega) (by omega)
        unfold rangeLoop at h
        simp only [hle, if_true, hw] at h
        refine ih (i + 1) _ out (by omega) (by omega) ?_ h
        intro e he
        rcases List.mem_append.1 he with he | he
        · exact hsplit e he
        · simp only [List.mem_singleton] at he
          subst he
          intro hmem
          rcases List.mem_append.1 hmem with h1 | h1
          · exact hdes h1
          · exact formatInt_no_dash hi0 h1
    · unfold rangeLoop at h
      simp only [hle, if_false, Option.some.injEq] at h
      subst h
      exact hsplit

/-- A successful expansion contains no dash. -/
theorem expandElems_dash_free (Number : Char → Bool) (fuel : Nat) :
    ∀ (es split : List Str) (t : Str), (∀ e ∈ split, '-' ∉ e) →
      expandElems Number fuel es split = some (t, none) → '-' ∉ t := by
  intro es
  induction es with
  | nil =>
    intro split t hsplit h
    simp only [expandElems, Option.some.injEq, Prod.mk.injEq, and_true] at h
    subst h
    intro hmem
    rcases mem_stringsJoin _ split hmem with h1 | ⟨e, he, h1⟩
    · exact absurd h1 (by decide)
    · exact hsplit e he h1
  | cons e es ih =>
    intro split t hsplit h
    unfold expandElems at h
    cases hcut : stringsCut e '-' with
    | none =>
      simp only [hcut] at h
      refine ih _ t ?_ h
      intro x hx
      rcases List.mem_append.1 hx with hx | hx
      · exact hsplit x hx
      · simp only [List.mem_singleton] at hx
        subst hx
        exact not_mem_of_stringsCut_eq_none _ hcut
    | some ba =>
      obtain ⟨ref1, ref2⟩ := ba
      simp only [hcut] at h
      have href1 : '-' ∉ ref1 := (stringsCut_eq_some e ref1 ref2 hcut).1
      cases h1 : splitDesignator Number ref1 with
      | error err1 => simp [h1] at h
      | ok pa =>
        obtain ⟨des1, num1⟩ := pa
        simp only [h1] at h
        cases h2 : splitDesignator Number ref2 with
        | error err2 =>
          simp only [h2, Option.some.injEq, Prod.mk.injEq, and_true] at h
          subst h
          simp
        | ok pb =>
          obtain ⟨des2, num2⟩ := pb
          simp only [h2] at h
          by_cases hdes : des1 = des2
          · simp only [hdes, ne_eq, not_true_eq_false, if_false] at h
            cases hloop : rangeLoop des2 num2 fuel num1 split with
            | none => simp [hloop] at h
            | some split1 =>
              simp only [hloop] at h
              have hdash : '-' ∉ des2 := fun hm =>
                href1 ((splitDesignator_ok h1).2 _ (hdes ▸ hm))
              exact ih split1 t (rangeLoop_dash_free des2 num2 hdash
                (splitDesignator_range h2).2 fuel num1 split split1 (splitDesignator_ok h1).1
                (splitDesignator_range h1).2 hsplit hloop) h
          · simp [hdes] at h

/-- C17: when `expandRanges` returns a result `t` with a nil error, `t` contains no
dash, and expanding `t` again returns `t` with a nil error, for every amount of
fuel. -/
theorem expandRanges_idempotent (Number : Char → Bool) (fuel : Nat) (s t : Str)
    (h : expandRanges Number fuel s = some (t, none)) :
    '-' ∉ t ∧ ∀ (fuel1 : Nat), expandRanges Number fuel1 t = some (t, none) := by
  have hdash : '-' ∉ t := expandElems_dash_free Number fuel _ [] t (by simp) h
  refine ⟨hdash, fun fuel1 => ?_⟩
  unfold expandRanges
  rw [expandElems_plain Number fuel1 _ _
    (fun e he hx => hdash (mem_of_mem_stringsSplit t e he hx))]
  simp only [List.nil_append]
  exact congrArg (fun u => some (u, none)) (stringsJoin_stringsSplit t ',')

/-- Witness of C17: `R5,C1-C2,R7` expands to `R5,C1,C2,R7`, which expands to
itself. -/
theorem expandRanges_idempotent_witness :
    expandRanges (fun _ => false) 3 "R5,C1-C2,R7".toList = some ("R5,C1,C2,R7".toList, none) ∧
      expandRanges (fun _ => false) 0 "R5,C1,C2,R7".toList =
        some ("R5,C1,C2,R7".toList, none) :=
  ⟨rfl, (expandRanges_idempotent (fun _ => false) 3 "R5,C1-C2,R7".toList
    "R5,C1,C2,R7".toList rfl).2 0⟩


theorem rangeLoop_exit (des1 : Str) (num2 i : Int) (split : List Str) (fuel : Nat)
    (hfuel : 0 < fuel) (h : num2 < i) : rangeLoop des1 num2 fuel i split = some split := by
  obtain ⟨f, rfl⟩ : ∃ f, fuel = f + 1 := ⟨fuel - 1, by omega⟩
  have : ¬ i ≤ num2 := by omega
  simp [rangeLoop, this]

/-- A range element whose sides split with the same prefix appends
`max 0 (b - a + 1)` designators, whatever follows it. The bound on `b` is needed only
when the range is not descending. -/
theorem expandElems_range_count (Number : Char → Bool) (fuel : Nat) (L R p : Str) (a b : Int)
    (hLdash : '-' ∉ L)
    (hL : splitDesignator Number L = .ok (p, a)) (hR : splitDesignator Number R = .ok (p, b))
    (hb : a ≤ b → b < maxInt) (hfuel : (max 0 (b - a + 1)).toNat < fuel)
    (rest split : List Str) :
    expandElems Number fuel ((L ++ '-' :: R) :: rest) split =
      expandElems Number fuel rest
        (split ++ (List.range (max 0 (b - a + 1)).toNat).map
          (fun (k : Nat) => p ++ formatInt (a + (k : Int)))) := by
  by_cases hab : a ≤ b
  · have hmax : max 0 (b - a + 1) = b - a + 1 := max_eq_right (by omega)
    rw [hmax] at hfuel ⊢
    exact expandElems_range_cons Number fuel L R p a b hLdash hL hR (by omega) (hb hab)
      hfuel rest split
  · have hmax : max 0 (b - a + 1) = 0 := max_eq_left (by omega)
    rw [hmax] at hfuel ⊢
    rw [expandElems]
    simp only [stringsCut_append R hLdash, hL, hR, ne_eq, not_true_eq_false, if_false,
      rangeLoop_exit p b a split fuel (by omega) (by omega)]
    simp

/-- C18: a range element `L-R` whose sides split to `(p, a)` and `(p, b)` appends
`max 0 (b - a + 1)` designators to the result (below the largest `int` when it
ascends); when `a > b` it appends none and reports no error, so that between
single designators the input `pre,L-R,post` expands to `pre,post`. One unit of
fuel is enough for a descending range. -/
theorem expandRanges_descending_range (Number : Char → Bool) (fuel : Nat)
    (pre post : List Str) (L R p : Str) (a b : Int)
    (hpre : ∀ e ∈ pre, PlainElem e) (hpost : ∀ e ∈ post, PlainElem e)
    (hLdash : '-' ∉ L) (hLcomma : ',' ∉ L) (hRcomma : ',' ∉ R)
    (hL : splitDesignator Number L = .ok (p, a)) (hR : splitDesignator Number R = .ok (p, b))
    (hb : a ≤ b → b < maxInt) (hfuel : (max 0 (b - a + 1)).toNat < fuel) :
    ((List.range (max 0 (b - a + 1)).toNat).map
        (fun (k : Nat) => p ++ formatInt (a + (k : Int)))).length = (max 0 (b - a + 1)).toNat ∧
      (∀ (rest split : List Str),
        expandElems Number fuel ((L ++ '-' :: R) :: rest) split =
          expandElems Number fuel rest
            (split ++ (List.range (max 0 (b - a + 1)).toNat).map
              (fun (k : Nat) => p ++ formatInt (a + (k : Int))))) ∧
      (b < a →
        expandRanges Number fuel (stringsJoin (pre ++ (L ++ '-' :: R) :: post) ",".toList) =
          some (stringsJoin (pre ++ post) ",".toList, none)) := by
  refine ⟨by simp, expandElems_range_count Number fuel L R p a b hLdash hL hR hb hfuel, ?_⟩
  intro hab
  have hcomma : ∀ e ∈ pre ++ (L ++ '-' :: R) :: post, ',' ∉ e := by
    intro e he
    rcases List.mem_append.1 he with he | he
    · exact (hpre e he).2
    · rcases List.mem_cons.1 he with rfl | he
      · exact not_mem_range_elem (by decide) hLcomma hRcomma
      · exact (hpost e he).2
  have hsplit : stringsSplit (stringsJoin (pre ++ (L ++ '-' :: R) :: post) ",".toList) ','
      = pre ++ (L ++ '-' :: R) :: post := stringsSplit_stringsJoin _ (by simp) hcomma
  have hmax : max 0 (b - a + 1) = 0 := max_eq_left (by omega)
  unfold expandRanges
  rw [hsplit, expandElems_plain_append Number fuel _ pre [] (fun e he => (hpre e he).1),
    expandElems_range_count Number fuel L R p a b hLdash hL hR hb hfuel, hmax,
    expandElems_plain Number fuel post _ (fun e he => (hpost e he).1)]
  simp

/-- Witness of C18: `C5-C1` expands to the empty string and `R1,C5-C1,R2` to
`R1,R2`, both with a nil error. -/
theorem expandRanges_descending_range_witness :
    expandRanges (fun _ => false) 1 "C5-C1".toList = some ([], none) ∧
      expandRanges (fun _ => false) 1 "R1,C5-C1,R2".toList = some ("R1,R2".toList, none) :=
  ⟨(expandRanges_descending_range (fun _ => false) 1 [] [] "C5".toList "C1".toList
      "C".toList 5 1 (by simp) (by simp) (by decide) (by decide) (by decide) rfl rfl
      (by decide) (by decide)).2.2 (by decide),
    (expandRanges_descending_range (fun _ => false) 1 ["R1".toList] ["R2".toList]
      "C5".toList "C1".toList "C".toList 5 1
      (by
        intro e he
        simp only [List.mem_singleton] at he
        subst he
        exact ⟨by decide, by decide⟩)
      (by
        intro e he
        simp only [List.mem_singleton] at he
        subst he
        exact ⟨by decide, by decide⟩)
      (by decide) (by decide) (by decide) rfl rfl
      (by decide) (by decide)).2.2 (by decide)⟩


/-! ## Header, offset length and empty fields of the placement converter -/

section Header

variable {α : Type} [Zero α] [Sub α] [Add α] [Mul α] [Div α] [Neg α] [OfNat α 180]

/-- C16: `convertCPL` goes on to the records (and writes anything at all) iff the
first record read is exactly `Ref, Val, Package, PosX, PosY, Rot, Side`; it then
first writes `Designator, Val, Package, Mid X, Mid Y, Rotation, Layer`; for any
other first record it returns the `unexpected header` error and writes nothing. -/
theorem convertCPL_header (lib : FloatLib α) (fixups : FixupSet α) (src : CPLSource)
    (dstErr : Option Str) :
    cplHeader = ["Ref".toList, "Val".toList, "Package".toList, "PosX".toList, "PosY".toList,
        "Rot".toList, "Side".toList] ∧
      cplOutHeader = ["Designator".toList, "Val".toList, "Package".toList, "Mid X".toList,
        "Mid Y".toList, "Rotation".toList, "Layer".toList] ∧
      ((convertCPL lib fixups src dstErr).1 ≠ [] ↔ src.header = .ok cplHeader) ∧
      (src.header = .ok cplHeader →
        convertCPL lib fixups src dstErr =
            cplLoop lib fixups src.final dstErr src.rows [cplOutHeader] ∧
          (convertCPL lib fixups src dstErr).1.head? = some cplOutHeader) ∧
      (∀ (rec : List Str), src.header = .ok rec → rec ≠ cplHeader →
        convertCPL lib fixups src dstErr =
          ([], some ("cpl: unexpected header: ".toList ++ stringsJoin rec ",".toList))) := by
  have hloop : ∀ rows, ∃ tail,
      (cplLoop lib fixups src.final dstErr rows [cplOutHeader]).1 = cplOutHeader :: tail := by
    intro rows
    obtain ⟨tail, ht⟩ := cplLoop_prefix lib fixups src.final dstErr rows [cplOutHeader]
    exact ⟨tail, by simpa using ht⟩
  refine ⟨rfl, rfl, ?_, ?_, ?_⟩
  · unfold convertCPL
    cases hh : src.header with
    | error e => simp
    | ok rec =>
      by_cases hrec : rec = cplHeader
      · obtain ⟨tail, ht⟩ := hloop src.rows
        simp [hrec, ht]
      · simp [hrec]
  · intro hh
    obtain ⟨tail, ht⟩ := hloop src.rows
    unfold convertCPL
    simp [hh, ht]
  · intro rec hh hrec
    unfold convertCPL
    simp [hh, hrec]

/-- C20: a record that the loop reaches, in which each of `Rot`, `PosX`, `PosY` is
either empty or parses, raises no error and is written; an empty field has the value
0 in the compensation and in the output, and without a fixup an empty `PosX`, `PosY`
or `Rot` is written as `Sprintf 0`, which is `0.000000` for Go's `%f`. -/
theorem convertCPL_empty_field (lib : FloatLib α) (fixups : FixupSet α)
    (src : CPLSource) (dstErr : Option Str) (pre post : List CPLRecord) (r : CPLRecord)
    (rot x y : α)
    (hheader : src.header = .ok cplHeader) (hrows : src.rows = pre ++ r :: post)
    (hpre : ∀ p ∈ pre, ∃ w, cplRow lib fixups p = .ok w)
    (hrot : (r.Rot = [] ∧ rot = 0) ∨ (r.Rot ≠ [] ∧ lib.ParseFloat r.Rot = some rot))
    (hx : (r.PosX = [] ∧ x = 0) ∨ (r.PosX ≠ [] ∧ lib.ParseFloat r.PosX = some x))
    (hy : (r.PosY = [] ∧ y = 0) ∨ (r.PosY ≠ [] ∧ lib.ParseFloat r.PosY = some y)) :
    cplRow lib fixups r = .ok [r.Ref, r.Val, r.Package,
        lib.Sprintf (cplValues lib fixups r.Ref r.Side rot x y).1,
        lib.Sprintf (cplValues lib fixups r.Ref r.Side rot x y).2.1,
        lib.Sprintf (cplValues lib fixups r.Ref r.Side rot x y).2.2, r.Side] ∧
      (∃ (ws tail : List (List Str)), ws.length = pre.length ∧
        (convertCPL lib fixups src dstErr).1 = cplOutHeader :: (ws ++
          [r.Ref, r.Val, r.Package,
            lib.Sprintf (cplValues lib fixups r.Ref r.Side rot x y).1,
            lib.Sprintf (cplValues lib fixups r.Ref r.Side rot x y).2.1,
            lib.Sprintf (cplValues lib fixups r.Ref r.Side rot x y).2.2, r.Side] :: tail)) ∧
      (fixups r.Ref = none → lib.Sprintf 0 = "0.000000".toList →
        cplRow lib fixups r = .ok [r.Ref, r.Val, r.Package,
          if r.PosX = [] then "0.000000".toList else lib.Sprintf x,
          if r.PosY = [] then "0.000000".toList else lib.Sprintf y,
          if r.Rot = [] then "0.000000".toList else lib.Sprintf rot, r.Side]) := by
  have key : ∀ (f : Str) (v : α),
      ((f = [] ∧ v = 0) ∨ (f ≠ [] ∧ lib.ParseFloat f = some v)) → parseField lib f = some v := by
    intro f v h
    rcases h with ⟨h1, h2⟩ | ⟨h1, h2⟩
    · simp [parseField, h1, h2]
    · simp [parseField, h1, h2]
  have hrow : cplRow lib fixups r = .ok [r.Ref, r.Val, r.Package,
      lib.Sprintf (cplValues lib fixups r.Ref r.Side rot x y).1,
      lib.Sprintf (cplValues lib fixups r.Ref r.Side rot x y).2.1,
      lib.Sprintf (cplValues lib fixups r.Ref r.Side rot x y).2.2, r.Side] := by
    simp only [cplRow, key _ _ hrot, key _ _ hx, key _ _ hy]
  refine ⟨hrow, convertCPL_reaches lib fixups src dstErr pre post r _ hheader hrows hpre hrow,
    ?_⟩
  intro hfix hfmt
  have hzero : ∀ (f : Str) (v : α),
      ((f = [] ∧ v = 0) ∨ (f ≠ [] ∧ lib.ParseFloat f = some v)) →
      (if f = [] then "0.000000".toList else lib.Sprintf v) = lib.Sprintf v := by
    intro f v h
    rcases h with ⟨h1, h2⟩ | ⟨h1, h2⟩
    · simp only [h1, if_true, h2, hfmt]
    · simp only [h1, if_false]
  rw [hrow, hzero _ _ hrot, hzero _ _ hx, hzero _ _ hy]
  simp only [cplValues, hfix]

end Header

/-- Witness of C20: a bottom-side record without a fixup and with an empty `PosX`. -/
theorem convertCPL_empty_field_witness :
    cplRow
        (⟨fun s => (Atoi s).map (fun (i : Int) => (i : ℚ)), fun _ => (0, 1), 3,
          fun q => formatInt q.floor ++ ".000000".toList⟩ : FloatLib ℚ)
        (fun _ => none)
        ⟨"U1".toList, "MCU".toList, "QFN".toList, [], "7".toList, "30".toList,
          "bottom".toList, 2⟩ =
      .ok ["U1".toList, "MCU".toList, "QFN".toList, "0.000000".toList, "7.000000".toList,
        "30.000000".toList, "bottom".toList] := by
  have h := (convertCPL_empty_field
    (⟨fun s => (Atoi s).map (fun (i : Int) => (i : ℚ)), fun _ => (0, 1), 3,
      fun q => formatInt q.floor ++ ".000000".toList⟩ : FloatLib ℚ)
    (fun _ => none)
    ⟨.ok cplHeader, [⟨"U1".toList, "MCU".toList, "QFN".toList, [], "7".toList,
      "30".toList, "bottom".toList, 2⟩], none⟩ none [] []
    ⟨"U1".toList, "MCU".toList, "QFN".toList, [], "7".toList, "30".toList,
      "bottom".toList, 2⟩ 30 0 7 rfl rfl (by simp)
    (Or.inr ⟨by decide, by rfl⟩) (Or.inl ⟨rfl, rfl⟩) (Or.inr ⟨by decide, by rfl⟩)).2.2
    rfl (by rfl)
  rw [h]
  have h7 : formatInt (Rat.floor 7) ++ ".000000".toList = "7.000000".toList := by rfl
  have h30 : formatInt (Rat.floor 30) ++ ".000000".toList = "30.000000".toList := by rfl
  simp only [List.cons_ne_nil, if_false, if_true, h7, h30]
  rfl


/-- C19: over exact real arithmetic, for a record whose designator has the fixup
`{d, ox, oy}`, the written position `(x1, y1)` is at the distance of the offset from
the parsed position, `(posX - x1)^2 + (posY - y1)^2 = ox^2 + oy^2`, on either side and
for every rotation, and the written rotation is
`(if bottom then 180 - rot0 else rot0) - d`, in which `ox`, `oy`, `posX` and `posY` do
not occur. -/
theorem convertCPL_offset_length (lib : FloatLib ℝ) (fixups : FixupSet ℝ) (r : CPLRecord)
    (rot0 posX posY d ox oy : ℝ)
    (hsincos : lib.Sincos = fun t => (Real.sin t, Real.cos t))
    (hrot : parseField lib r.Rot = some rot0) (hposx : parseField lib r.PosX = some posX)
    (hposy : parseField lib r.PosY = some posY)
    (hfix : fixups r.Ref = some ⟨d, ox, oy⟩) :
    ∃ (x1 y1 : ℝ),
      cplRow lib fixups r = .ok [r.Ref, r.Val, r.Package, lib.Sprintf x1, lib.Sprintf y1,
        lib.Sprintf ((if r.Side = "bottom".toList then 180 - rot0 else rot0) - d), r.Side] ∧
      cplValues lib fixups r.Ref r.Side rot0 posX posY =
        (x1, y1, (if r.Side = "bottom".toList then 180 - rot0 else rot0) - d) ∧
      (posX - x1) ^ 2 + (posY - y1) ^ 2 = ox ^ 2 + oy ^ 2 := by
  have hvalues : cplValues lib fixups r.Ref r.Side rot0 posX posY =
      ((cplValues lib fixups r.Ref r.Side rot0 posX posY).1,
        (cplValues lib fixups r.Ref r.Side rot0 posX posY).2.1,
        (if r.Side = "bottom".toList then 180 - rot0 else rot0) - d) := by
    simp only [cplValues, hfix, compensate]
  refine ⟨(cplValues lib fixups r.Ref r.Side rot0 posX posY).1,
    (cplValues lib fixups r.Ref r.Side rot0 posX posY).2.1, ?_, hvalues, ?_⟩
  · simp only [cplRow, hrot, hposx, hposy]
    rw [hvalues]
  · simp only [cplValues, hfix, compensate, hsincos]
    by_cases hs : r.Side = "bottom".toList
    · simp only [hs, if_true]
      have h := Real.sin_sq_add_cos_sq ((180 - rot0 - d) / 180 * lib.Pi)
      nlinarith [h]
    · simp only [hs, if_false]
      have h := Real.sin_sq_add_cos_sq ((rot0 - d) / 180 * lib.Pi)
      nlinarith [h]


/-- Witness of C19: rotation 30 on the bottom side with the fixup `{10, 3, 4}` moves
the position `(5, 7)` by a vector of squared length 25. -/
theorem convertCPL_offset_length_witness :
    ∃ (x1 y1 : ℝ),
      cplValues
          (⟨fun s => (Atoi s).map (fun (i : Int) => (i : ℝ)),
            fun t => (Real.sin t, Real.cos t), Real.pi, fun _ => []⟩ : FloatLib ℝ)
          (fun _ => some ⟨10, 3, 4⟩) "U1".toList "bottom".toList 30 5 7 = (x1, y1, 140) ∧
      (5 - x1) ^ 2 + (7 - y1) ^ 2 = 25 := by
  obtain ⟨x1, y1, _, hvalues, hlen⟩ := convertCPL_offset_length
    (⟨fun s => (Atoi s).map (fun (i : Int) => (i : ℝ)), fun t => (Real.sin t, Real.cos t),
      Real.pi, fun _ => []⟩ : FloatLib ℝ)
    (fun _ => some ⟨10, 3, 4⟩)
    ⟨"U1".toList, "MCU".toList, "QFN".toList, "5".toList, "7".toList, "30".toList,
      "bottom".toList, 2⟩ 30 5 7 10 3 4 rfl
    (by
      have h30 : Atoi ['3', '0'] = some 30 := by rfl
      simp [parseField, h30])
    (by
      have h5 : Atoi ['5'] = some 5 := by rfl
      simp [parseField, h5])
    (by
      have h7 : Atoi ['7'] = some 7 := by rfl
      simp [parseField, h7])
    rfl
  refine ⟨x1, y1, ?_, ?_⟩
  · rw [hvalues]
    norm_num
  · rw [hlen]
    norm_num


/-! ## Facts about the parts-list loop -/

section BOM

variable {α : Type}

theorem setFixup_foldl (f : Fixup α) (d : Str) :
    ∀ (l : List Str) (m0 : FixupSet α),
      (l.foldl (fun m ref => setFixup m ref f) m0) d = if d ∈ l then some f else m0 d := by
  intro l
  induction l with
  | nil => intro m0; simp
  | cons x xs ih =>
    intro m0
    rw [List.foldl_cons, ih]
    by_cases hx : d ∈ xs
    · simp [hx]
    · by_cases hd : d = x
      · simp [hx, hd, setFixup]
      · simp [hx, hd, setFixup]

theorem addFixups_apply (table : FixupSet α) (partno refs : Str) (m : FixupSet α) (d : Str) :
    addFixups table partno refs m d =
      match table partno with
      | some f => if d ∈ stringsSplit refs ',' then some f else m d
      | none => m d := by
  unfold addFixups
  cases table partno with
  | none => rfl
  | some f => exact setFixup_foldl f d _ m

/-- Rows that do not give `d` a fixup leave its entry alone. -/
theorem addFixups_foldl_untouched (table : FixupSet α) (d : Str) :
    ∀ (l : List (BOMRecord × Str)) (m0 : FixupSet α),
      (∀ q ∈ l, table q.1.LCSC = none ∨ d ∉ stringsSplit q.2 ',') →
      (l.foldl (fun m q => addFixups table q.1.LCSC q.2 m) m0) d = m0 d := by
  intro l
  induction l with
  | nil => intro m0 _; rfl
  | cons q qs ih =>
    intro m0 h
    rw [List.foldl_cons, ih _ (fun x hx => h x (List.mem_cons_of_mem _ hx)), addFixups_apply]
    rcases h q (by simp) with h1 | h1
    · simp [h1]
    · cases table q.1.LCSC <;> simp [h1]

/-- An entry, once present, stays present. -/
theorem addFixups_foldl_isSome (table : FixupSet α) (d : Str) :
    ∀ (l : List (BOMRecord × Str)) (m0 : FixupSet α), m0 d ≠ none →
      (l.foldl (fun m q => addFixups table q.1.LCSC q.2 m) m0) d ≠ none := by
  intro l
  induction l with
  | nil => intro m0 h; exact h
  | cons q qs ih =>
    intro m0 h
    rw [List.foldl_cons]
    apply ih
    rw [addFixups_apply]
    cases table q.1.LCSC with
    | none => exact h
    | some f =>
      by_cases hd : d ∈ stringsSplit q.2 ','
      · simp [hd]
      · simpa [hd] using h

/-- Every entry comes from the start map or from a row. -/
theorem addFixups_foldl_origin (table : FixupSet α) (d : Str) (f : Fixup α) :
    ∀ (l : List (BOMRecord × Str)) (m0 : FixupSet α),
      (l.foldl (fun m q => addFixups table q.1.LCSC q.2 m) m0) d = some f →
      m0 d = some f ∨ ∃ q ∈ l, table q.1.LCSC = some f ∧ d ∈ stringsSplit q.2 ',' := by
  intro l
  induction l with
  | nil => intro m0 h; exact Or.inl h
  | cons q qs ih =>
    intro m0 h
    rw [List.foldl_cons] at h
    rcases ih _ h with h1 | ⟨x, hx, hx2⟩
    · rw [addFixups_apply] at h1
      cases ht : table q.1.LCSC with
      | none =>
        simp only [ht] at h1
        exact Or.inl h1
      | some g =>
        simp only [ht] at h1
        by_cases hd : d ∈ stringsSplit q.2 ','
        · simp only [hd, if_true, Option.some.injEq] at h1
          exact Or.inr ⟨q, by simp, by rw [ht, h1], hd⟩
        · simp only [hd, if_false] at h1
          exact Or.inl h1
    · exact Or.inr ⟨x, List.mem_cons_of_mem _ hx, hx2⟩

/-- The loop only appends to the written records. -/
theorem bomLoop_prefix (Number : Char → Bool) (fuel : Nat) (table : FixupSet α)
    (final dstErr : Option Str) :
    ∀ (rows : List BOMRecord) (fixups : FixupSet α) (written : List (List Str))
      (res : BOMResult α),
      bomLoop Number fuel table final dstErr rows fixups written = some res →
      ∃ tail, res.written = written ++ tail := by
  intro rows
  induction rows with
  | nil =>
    intro fixups written res h
    unfold bomLoop at h
    cases final with
    | none =>
      simp only [Option.some.injEq] at h
      subst h
      exact ⟨[], by simp⟩
    | some e =>
      simp only [Option.some.injEq] at h
      subst h
      exact ⟨[], by simp⟩
  | cons r rows ih =>
    intro fixups written res h
    unfold bomLoop at h
    by_cases hp : r.LCSC = []
    · simp only [hp, if_true, Option.some.injEq] at h
      subst h
      exact ⟨[], by simp⟩
    · simp only [hp, if_false] at h
      cases he : expandRanges Number fuel r.Reference with
      | none => simp [he] at h
      | some pr =>
        obtain ⟨refs, err⟩ := pr
        cases err with
        | some e =>
          simp only [he, Option.some.injEq] at h
          subst h
          exact ⟨[], by simp⟩
        | none =>
          simp only [he] at h
          obtain ⟨tail, ht⟩ := ih _ _ res h
          exact ⟨[normaliseValue r.Value, refs, r.Footprint, r.LCSC] :: tail, by simp [ht]⟩

/-- Rows that pass both checks move on to the rest of the input. -/
theorem bomLoop_pre (Number : Char → Bool) (fuel : Nat) (table : FixupSet α)
    (final dstErr : Option Str) (rest : List BOMRecord) :
    ∀ (pre : List BOMRecord) (fixups : FixupSet α) (written : List (List Str)),
      (∀ p ∈ pre, p.LCSC ≠ [] ∧
        ∃ refs, expandRanges Number fuel p.Reference = some (refs, none)) →
      ∃ (fixups1 : FixupSet α) (ws : List (List Str)), ws.length = pre.length ∧
        bomLoop Number fuel table final dstErr (pre ++ rest) fixups written =
          bomLoop Number fuel table final dstErr rest fixups1 (written ++ ws) := by
  intro pre
  induction pre with
  | nil => intro fixups written _; exact ⟨fixups, [], rfl, by simp⟩
  | cons p pre ih =>
    intro fixups written h
    obtain ⟨hp, refs, hrefs⟩ := h p (by simp)
    obtain ⟨fixups1, ws, hlen, hws⟩ := ih (addFixups table p.LCSC refs fixups)
      (written ++ [[normaliseValue p.Value, refs, p.Footprint, p.LCSC]])
      (fun x hx => h x (List.mem_cons_of_mem _ hx))
    refine ⟨fixups1, [normaliseValue p.Value, refs, p.Footprint, p.LCSC] :: ws,
      by simp [hlen], ?_⟩
    simp only [List.cons_append]
    rw [bomLoop]
    simp only [hp, if_false, hrefs, hws, List.append_assoc, List.singleton_append]

/-- A run of the loop that ends without error has expanded every reference field,
folded the fixups of the rows into the map and written one record per row. -/
theorem bomLoop_success (Number : Char → Bool) (fuel : Nat) (table : FixupSet α)
    (final dstErr : Option Str) :
    ∀ (rows : List BOMRecord) (fixups : FixupSet α) (written : List (List Str))
      (res : BOMResult α),
      bomLoop Number fuel table final dstErr rows fixups written = some res →
      res.err = none →
      ∃ (exps : List Str),
        List.Forall₂ (fun (r : BOMRecord) (e : Str) =>
          r.LCSC ≠ [] ∧ expandRanges Number fuel r.Reference = some (e, none)) rows exps ∧
        res.fixups = some ((List.zip rows exps).foldl
          (fun m q => addFixups table q.1.LCSC q.2 m) fixups) ∧
        res.written = written ++ (List.zip rows exps).map
          (fun q => [normaliseValue q.1.Value, q.2, q.1.Footprint, q.1.LCSC]) := by
  intro rows
  induction rows with
  | nil =>
    intro fixups written res h hok
    unfold bomLoop at h
    cases final with
    | none =>
      simp only [Option.some.injEq] at h
      subst h
      exact ⟨[], List.Forall₂.nil, by simp, by simp⟩
    | some e =>
      simp only [Option.some.injEq] at h
      subst h
      simp at hok
  | cons r rows ih =>
    intro fixups written res h hok
    unfold bomLoop at h
    by_cases hp : r.LCSC = []
    · simp only [hp, if_true, Option.some.injEq] at h
      subst h
      simp at hok
    · simp only [hp, if_false] at h
      cases he : expandRanges Number fuel r.Reference with
      | none => simp [he] at h
      | some pr =>
        obtain ⟨refs, err⟩ := pr
        cases err with
        | some e =>
          simp only [he, Option.some.injEq] at h
          subst h
          simp at hok
        | none =>
          simp only [he] at h
          obtain ⟨exps, hall, hfix, hw⟩ := ih _ _ res h hok
          exact ⟨refs :: exps, List.Forall₂.cons ⟨hp, he⟩ hall, by simp [hfix],
            by simp [hw]⟩

end BOM


/-! ## The parts-list converter -/

section BOMClaims

variable {α : Type}

/-- A successful run has accepted the header and is the run of the loop. -/
theorem convertBOM_success (Number : Char → Bool) (fuel : Nat) (table : FixupSet α)
    (src : BOMSource) (dstErr : Option Str) (res : BOMResult α)
    (hres : convertBOM Number fuel table src dstErr = some res) (hok : res.err = none) :
    src.header = .ok bomHeader ∧
      bomLoop Number fuel table src.final dstErr src.rows emptyFixups [bomOutHeader]
        = some res := by
  unfold convertBOM at hres
  cases hh : src.header with
  | error e =>
    simp only [hh, Option.some.injEq] at hres
    subst hres
    simp at hok
  | ok rec =>
    simp only [hh] at hres
    by_cases hrec : rec = bomHeader
    · simp only [hrec, ne_eq, not_true_eq_false, if_false] at hres
      exact ⟨by rw [hrec], hres⟩
    · simp only [ne_eq, hrec, not_false_eq_true, if_true, Option.some.injEq] at hres
      subst hres
      simp at hok

theorem forall₂_zip_map {β γ δ : Type} (R : β → γ → Prop) (f : β × γ → δ) :
    ∀ (xs : List β) (ys : List γ), List.Forall₂ R xs ys →
      List.Forall₂ (fun x w => ∃ y, R x y ∧ w = f (x, y)) xs ((List.zip xs ys).map f) := by
  intro xs ys h
  induction h with
  | nil => exact List.Forall₂.nil
  | cons hxy _ ih => exact List.Forall₂.cons ⟨_, hxy, rfl⟩ ih

/-- C11: when `convertBOM` succeeds it returns a map `m` such that, with the expanded
reference field of each row, (1) for every row whose part number is in the table,
every comma-separated element of its expanded references is a key of `m`; (2) a
designator `d` that is an element of the expanded references of a row whose part
number is in the table, and of no later such row, maps to the table's fixup for that
row's part number; (3) every entry of `m` is the table's fixup of some row whose
expanded references have the key as an element. -/
theorem convertBOM_fixups (Number : Char → Bool) (fuel : Nat) (table : FixupSet α)
    (src : BOMSource) (dstErr : Option Str) (res : BOMResult α)
    (hres : convertBOM Number fuel table src dstErr = some res) (hok : res.err = none) :
    ∃ (m : FixupSet α) (exps : List Str), res.fixups = some m ∧
      List.Forall₂ (fun (r : BOMRecord) (e : Str) =>
        expandRanges Number fuel r.Reference = some (e, none)) src.rows exps ∧
      (∀ q ∈ List.zip src.rows exps, table q.1.LCSC ≠ none →
        ∀ d ∈ stringsSplit q.2 ',', m d ≠ none) ∧
      (∀ (l1 l2 : List (BOMRecord × Str)) (q : BOMRecord × Str) (f : Fixup α) (d : Str),
        List.zip src.rows exps = l1 ++ q :: l2 → table q.1.LCSC = some f →
        d ∈ stringsSplit q.2 ',' →
        (∀ q1 ∈ l2, table q1.1.LCSC = none ∨ d ∉ stringsSplit q1.2 ',') → m d = some f) ∧
      (∀ (d : Str) (f : Fixup α), m d = some f →
        ∃ q ∈ List.zip src.rows exps, table q.1.LCSC = some f ∧ d ∈ stringsSplit q.2 ',') := by
  obtain ⟨_, hloop⟩ := convertBOM_success Number fuel table src dstErr res hres hok
  obtain ⟨exps, hall, hfix, _⟩ :=
    bomLoop_success Number fuel table src.final dstErr src.rows _ _ res hloop hok
  refine ⟨_, exps, hfix, hall.imp (fun _ _ h => h.2), ?_, ?_, ?_⟩
  · intro q hq hq1 d hd
    obtain ⟨l1, l2, hl⟩ := List.append_of_mem hq
    obtain ⟨f, hf⟩ := Option.ne_none_iff_exists'.1 hq1
    rw [hl, List.foldl_append, List.foldl_cons]
    apply addFixups_foldl_isSome
    rw [addFixups_apply]
    simp [hf, hd]
  · intro l1 l2 q f d hl hf hd hl2
    rw [hl, List.foldl_append, List.foldl_cons, addFixups_foldl_untouched table d l2 _ hl2,
      addFixups_apply]
    simp [hf, hd]
  · intro d f hm
    rcases addFixups_foldl_origin table d f _ _ hm with h | h
    · simp [emptyFixups] at h
    · exact h

/-- C12: given a valid header, at the first row with an empty part number (the earlier
rows having a part number and a reference field that expands) `convertBOM` returns the
nil map and the error `<raw reference field>: missing LCDC part number`, having written
the header and one record per earlier row only. Nothing is assumed of the reference
field of the row: the check comes before the expansion. -/
theorem convertBOM_missing_part_number (Number : Char → Bool) (fuel : Nat)
    (table : FixupSet α) (src : BOMSource) (dstErr : Option Str)
    (pre post : List BOMRecord) (r : BOMRecord)
    (hheader : src.header = .ok bomHeader) (hrows : src.rows = pre ++ r :: post)
    (hpre : ∀ p ∈ pre, p.LCSC ≠ [] ∧
      ∃ refs, expandRanges Number fuel p.Reference = some (refs, none))
    (hr : r.LCSC = []) :
    ∃ (ws : List (List Str)), ws.length = pre.length ∧
      convertBOM Number fuel table src dstErr =
        some ⟨none, bomOutHeader :: ws,
          some (r.Reference ++ ": missing LCDC part number".toList)⟩ := by
  obtain ⟨fixups1, ws, hlen, hws⟩ := bomLoop_pre Number fuel table src.final dstErr
    (r :: post) pre emptyFixups [bomOutHeader] hpre
  refine ⟨ws, hlen, ?_⟩
  unfold convertBOM
  simp only [hheader, ne_eq, not_true_eq_false, if_false, hrows, hws]
  rw [bomLoop]
  simp [hr, missingPartNumber]

/-- C13: when `convertBOM` succeeds, the records written after the header are one per
input row, in order, and the first column of each is `~` if the row's value is exactly
`-- mixed values --` and the row's value otherwise. -/
theorem convertBOM_mixed_values (Number : Char → Bool) (fuel : Nat) (table : FixupSet α)
    (src : BOMSource) (dstErr : Option Str) (res : BOMResult α)
    (hres : convertBOM Number fuel table src dstErr = some res) (hok : res.err = none) :
    ∃ (outs : List (List Str)), res.written = bomOutHeader :: outs ∧
      List.Forall₂ (fun (r : BOMRecord) (w : List Str) =>
        w.head? = some (if r.Value = "-- mixed values --".toList then "~".toList
          else r.Value)) src.rows outs := by
  obtain ⟨_, hloop⟩ := convertBOM_success Number fuel table src dstErr res hres hok
  obtain ⟨exps, hall, _, hw⟩ :=
    bomLoop_success Number fuel table src.final dstErr src.rows _ _ res hloop hok
  refine ⟨_, by simpa using hw, ?_⟩
  refine (forall₂_zip_map _ _ src.rows exps hall).imp ?_
  rintro r w ⟨e, _, rfl⟩
  simp [normaliseValue]

/-- C14: when `convertBOM` succeeds, the records written are the header followed by
exactly one record per input row, in input order, and the record of a row is
`[value (normalised), expandRanges(reference), footprint, part number]`. -/
theorem convertBOM_rows (Number : Char → Bool) (fuel : Nat) (table : FixupSet α)
    (src : BOMSource) (dstErr : Option Str) (res : BOMResult α)
    (hres : convertBOM Number fuel table src dstErr = some res) (hok : res.err = none) :
    ∃ (outs : List (List Str)), res.written = bomOutHeader :: outs ∧
      outs.length = src.rows.length ∧
      List.Forall₂ (fun (r : BOMRecord) (w : List Str) =>
        ∃ refs, expandRanges Number fuel r.Reference = some (refs, none) ∧
          w = [normaliseValue r.Value, refs, r.Footprint, r.LCSC]) src.rows outs := by
  obtain ⟨_, hloop⟩ := convertBOM_success Number fuel table src dstErr res hres hok
  obtain ⟨exps, hall, _, hw⟩ :=
    bomLoop_success Number fuel table src.final dstErr src.rows _ _ res hloop hok
  have hzip := forall₂_zip_map _
    (fun q : BOMRecord × Str => [normaliseValue q.1.Value, q.2, q.1.Footprint, q.1.LCSC])
    src.rows exps hall
  have hout : List.Forall₂ (fun (r : BOMRecord) (w : List Str) =>
      ∃ refs, expandRanges Number fuel r.Reference = some (refs, none) ∧
        w = [normaliseValue r.Value, refs, r.Footprint, r.LCSC]) src.rows
      ((List.zip src.rows exps).map
        (fun q => [normaliseValue q.1.Value, q.2, q.1.Footprint, q.1.LCSC])) := by
    refine hzip.imp ?_
    rintro r w ⟨e, ⟨_, he⟩, rfl⟩
    exact ⟨e, he, rfl⟩
  exact ⟨_, by simpa using hw, hout.length_eq.symm, hout⟩

/-- C15 (amended): `convertBOM` goes on to the rows iff the first record read is exactly
`Reference, Value, Footprint, LCSC`; it then first writes
`Comment, Designator, Footprint, LCSC`; for any other first record it returns the
`unexpected header` error and the nil map, and writes nothing. -/
theorem convertBOM_header (Number : Char → Bool) (fuel : Nat) (table : FixupSet α)
    (src : BOMSource) (dstErr : Option Str) :
    bomHeader = ["Reference".toList, "Value".toList, "Footprint".toList, "LCSC".toList] ∧
      bomOutHeader = ["Comment".toList, "Designator".toList, "Footprint".toList,
        "LCSC".toList] ∧
      (src.header = .ok bomHeader →
        convertBOM Number fuel table src dstErr =
          bomLoop Number fuel table src.final dstErr src.rows emptyFixups [bomOutHeader]) ∧
      (∀ (res : BOMResult α), convertBOM Number fuel table src dstErr = some res →
        ((res.written ≠ [] ↔ src.header = .ok bomHeader) ∧
          (src.header = .ok bomHeader → res.written.head? = some bomOutHeader))) ∧
      (∀ (rec : List Str), src.header = .ok rec → rec ≠ bomHeader →
        convertBOM Number fuel table src dstErr =
          some ⟨none, [],
            some ("bom: unexpected header: ".toList ++ stringsJoin rec ",".toList)⟩) := by
  refine ⟨rfl, rfl, ?_, ?_, ?_⟩
  · intro hh
    unfold convertBOM
    simp [hh]
  · intro res hres
    unfold convertBOM at hres
    cases hh : src.header with
    | error e =>
      simp only [hh, Option.some.injEq] at hres
      subst hres
      simp
    | ok rec =>
      simp only [hh] at hres
      by_cases hrec : rec = bomHeader
      · simp only [hrec, ne_eq, not_true_eq_false, if_false] at hres
        obtain ⟨tail, ht⟩ := bomLoop_prefix Number fuel table src.final dstErr _ _ _ res hres
        simp [hrec, ht]
      · simp only [ne_eq, hrec, not_false_eq_true, if_true, Option.some.injEq] at hres
        subst hres
        simp [hrec]
  · intro rec hh hrec
    unfold convertBOM
    simp [hh, hrec]

end BOMClaims


/-- Witness of C13: a run of two rows, the first with the value `-- mixed values --`. -/
theorem convertBOM_mixed_values_witness :
    ∃ (res : BOMResult ℚ),
      convertBOM (fun _ => false) 3
        (fun pn => if pn = "C2040".toList then some ⟨90, 0, 0⟩ else none)
        ⟨.ok bomHeader, [⟨"R1-R2".toList, "-- mixed values --".toList, "0402".toList,
            "C25744".toList⟩,
          ⟨"U1".toList, "RP2040".toList, "QFN".toList, "C2040".toList⟩], none⟩ none
        = some res ∧
      ∃ (outs : List (List Str)), res.written = bomOutHeader :: outs ∧
        List.Forall₂ (fun (r : BOMRecord) (w : List Str) =>
          w.head? = some (if r.Value = "-- mixed values --".toList then "~".toList
            else r.Value))
          [⟨"R1-R2".toList, "-- mixed values --".toList, "0402".toList, "C25744".toList⟩,
            ⟨"U1".toList, "RP2040".toList, "QFN".toList, "C2040".toList⟩] outs :=
  ⟨_, rfl, convertBOM_mixed_values (fun _ => false) 3
    (fun pn => if pn = "C2040".toList then some ⟨90, 0, 0⟩ else none)
    ⟨.ok bomHeader, [⟨"R1-R2".toList, "-- mixed values --".toList, "0402".toList,
        "C25744".toList⟩,
      ⟨"U1".toList, "RP2040".toList, "QFN".toList, "C2040".toList⟩], none⟩ none _ rfl rfl⟩


/-- Witness of C11: a run of two rows, the second with a part number of the table. -/
theorem convertBOM_fixups_witness :
    ∃ (res : BOMResult ℚ),
      convertBOM (fun _ => false) 3
        (fun pn => if pn = "C2040".toList then some ⟨90, 0, 0⟩ else none)
        ⟨.ok bomHeader, [⟨"R1-R2".toList, "10k".toList, "0402".toList, "C25744".toList⟩,
          ⟨"U1,U2".toList, "RP2040".toList, "QFN".toList, "C2040".toList⟩], none⟩ none
        = some res ∧
      ∃ (m : FixupSet ℚ) (exps : List Str), res.fixups = some m ∧
        List.Forall₂ (fun (r : BOMRecord) (e : Str) =>
          expandRanges (fun _ => false) 3 r.Reference = some (e, none))
          [⟨"R1-R2".toList, "10k".toList, "0402".toList, "C25744".toList⟩,
            ⟨"U1,U2".toList, "RP2040".toList, "QFN".toList, "C2040".toList⟩] exps ∧
        (∀ q ∈ List.zip
            [(⟨"R1-R2".toList, "10k".toList, "0402".toList, "C25744".toList⟩ : BOMRecord),
              ⟨"U1,U2".toList, "RP2040".toList, "QFN".toList, "C2040".toList⟩] exps,
          (fun pn => if pn = "C2040".toList then some (⟨90, 0, 0⟩ : Fixup ℚ) else none)
            q.1.LCSC ≠ none →
          ∀ d ∈ stringsSplit q.2 ',', m d ≠ none) ∧
        (∀ (l1 l2 : List (BOMRecord × Str)) (q : BOMRecord × Str) (f : Fixup ℚ) (d : Str),
          List.zip
            [(⟨"R1-R2".toList, "10k".toList, "0402".toList, "C25744".toList⟩ : BOMRecord),
              ⟨"U1,U2".toList, "RP2040".toList, "QFN".toList, "C2040".toList⟩] exps
            = l1 ++ q :: l2 →
          (fun pn => if pn = "C2040".toList then some (⟨90, 0, 0⟩ : Fixup ℚ) else none)
            q.1.LCSC = some f →
          d ∈ stringsSplit q.2 ',' →
          (∀ q1 ∈ l2,
            (fun pn => if pn = "C2040".toList then some (⟨90, 0, 0⟩ : Fixup ℚ) else none)
              q1.1.LCSC = none ∨ d ∉ stringsSplit q1.2 ',') → m d = some f) ∧
        (∀ (d : Str) (f : Fixup ℚ), m d = some f →
          ∃ q ∈ List.zip
            [(⟨"R1-R2".toList, "10k".toList, "0402".toList, "C25744".toList⟩ : BOMRecord),
              ⟨"U1,U2".toList, "RP2040".toList, "QFN".toList, "C2040".toList⟩] exps,
            (fun pn => if pn = "C2040".toList then some (⟨90, 0, 0⟩ : Fixup ℚ) else none)
              q.1.LCSC = some f ∧ d ∈ stringsSplit q.2 ',') :=
  ⟨_, rfl, convertBOM_fixups (fun _ => false) 3
    (fun pn => if pn = "C2040".toList then some ⟨90, 0, 0⟩ else none)
    ⟨.ok bomHeader, [⟨"R1-R2".toList, "10k".toList, "0402".toList, "C25744".toList⟩,
      ⟨"U1,U2".toList, "RP2040".toList, "QFN".toList, "C2040".toList⟩], none⟩ none _ rfl rfl⟩

/-- Witness of C12: the second row has no part number and a reference field that
would not expand. -/
theorem convertBOM_missing_part_number_witness :
    ∃ (ws : List (List Str)), ws.length = 1 ∧
      convertBOM (fun _ => false) 3
        (fun pn => if pn = "C2040".toList then some (⟨90, 0, 0⟩ : Fixup ℚ) else none)
        ⟨.ok bomHeader, [⟨"R1-R2".toList, "10k".toList, "0402".toList, "C25744".toList⟩,
          ⟨"C1-R3".toList, "100n".toList, "0402".toList, []⟩,
          ⟨"U1".toList, "RP2040".toList, "QFN".toList, "C2040".toList⟩], none⟩ none =
        some ⟨none, bomOutHeader :: ws,
          some ("C1-R3".toList ++ ": missing LCDC part number".toList)⟩ :=
  convertBOM_missing_part_number (fun _ => false) 3
    (fun pn => if pn = "C2040".toList then some (⟨90, 0, 0⟩ : Fixup ℚ) else none)
    ⟨.ok bomHeader, [⟨"R1-R2".toList, "10k".toList, "0402".toList, "C25744".toList⟩,
      ⟨"C1-R3".toList, "100n".toList, "0402".toList, []⟩,
      ⟨"U1".toList, "RP2040".toList, "QFN".toList, "C2040".toList⟩], none⟩ none
    [⟨"R1-R2".toList, "10k".toList, "0402".toList, "C25744".toList⟩]
    [⟨"U1".toList, "RP2040".toList, "QFN".toList, "C2040".toList⟩]
    ⟨"C1-R3".toList, "100n".toList, "0402".toList, []⟩ rfl rfl
    (by
      intro p hp
      simp only [List.mem_singleton] at hp
      subst hp
      exact ⟨by decide, _, rfl⟩)
    rfl

/-- Witness of C14: a run of two rows. -/
theorem convertBOM_rows_witness :
    ∃ (res : BOMResult ℚ),
      convertBOM (fun _ => false) 3
        (fun pn => if pn = "C2040".toList then some ⟨90, 0, 0⟩ else none)
        ⟨.ok bomHeader, [⟨"R1-R2".toList, "-- mixed values --".toList, "0402".toList,
            "C25744".toList⟩,
          ⟨"U1".toList, "RP2040".toList, "QFN".toList, "C2040".toList⟩], none⟩ none
        = some res ∧
      ∃ (outs : List (List Str)), res.written = bomOutHeader :: outs ∧
        outs.length = 2 ∧
        List.Forall₂ (fun (r : BOMRecord) (w : List Str) =>
          ∃ refs, expandRanges (fun _ => false) 3 r.Reference = some (refs, none) ∧
            w = [normaliseValue r.Value, refs, r.Footprint, r.LCSC])
          [⟨"R1-R2".toList, "-- mixed values --".toList, "0402".toList, "C25744".toList⟩,
            ⟨"U1".toList, "RP2040".toList, "QFN".toList, "C2040".toList⟩] outs :=
  ⟨_, rfl, convertBOM_rows (fun _ => false) 3
    (fun pn => if pn = "C2040".toList then some ⟨90, 0, 0⟩ else none)
    ⟨.ok bomHeader, [⟨"R1-R2".toList, "-- mixed values --".toList, "0402".toList,
        "C25744".toList⟩,
      ⟨"U1".toList, "RP2040".toList, "QFN".toList, "C2040".toList⟩], none⟩ none _ rfl rfl⟩

/-- Counterexample to C15 as stated: the header `Reference, Value, Footprint,
PartNumber` is rejected, and the header that is accepted, and the one that is written,
end in `LCSC`. -/
theorem convertBOM_PartNumber_header_rejected :
    convertBOM (fun _ => false) 0 (fun _ => (none : Option (Fixup ℚ)))
        ⟨.ok ["Reference".toList, "Value".toList, "Footprint".toList, "PartNumber".toList],
          [], none⟩ none =
      some ⟨none, [],
        some "bom: unexpected header: Reference,Value,Footprint,PartNumber".toList⟩ ∧
    convertBOM (fun _ => false) 0 (fun _ => (none : Option (Fixup ℚ)))
        ⟨.ok ["Reference".toList, "Value".toList, "Footprint".toList, "LCSC".toList],
          [], none⟩ none =
      some ⟨some emptyFixups,
        [["Comment".toList, "Designator".toList, "Footprint".toList, "LCSC".toList]], none⟩ :=
  ⟨rfl, rfl⟩


end Jlcpcb
